import Mathlib

/-
Verification of the school-management core: the in-memory entity model
(Person/Student/Instructor/Course), the JSON snapshot codec
(save_to_file / to_dict), the Reconciler (DataManager.load_obj_from_json)
and the SQLite-backed relational store (db_manager).

The Python object graph is embedded positionally: the i-th element of a
collection is identified by the index i, and the mutable relationship
attributes (registered_courses, enrolled_students, assigned_courses,
course.instructor) are total functions from indices to index lists /
optional indices.  Python `in` on these lists is object identity, which
the positional encoding captures exactly.  Python dicts built by
comprehension ({s.student_id: s}) keep, for a duplicated key, the object
of the last insertion; dictIdx below returns the last matching index.
-/

/-- Scalar part of a Person (models src/src/core/models/person.py). -/
structure Person where
  name : String
  age : Int
  email : String
deriving Repr, DecidableEq

/-- Student record as stored in a snapshot document (field names of §6:
name, age, email, student_id, registered_courses as course-id list). -/
structure StudentRec where
  name : String
  age : Int
  email : String
  student_id : String
  registered_courses : List String
deriving Repr, DecidableEq

/-- Instructor record of a snapshot document. -/
structure InstructorRec where
  name : String
  age : Int
  email : String
  instructor_id : String
  assigned_courses : List String
deriving Repr, DecidableEq

/-- Course record of a snapshot document; `instructor` is an instructor id
or null, `enrolled_students` a student-id list. -/
structure CourseRec where
  course_id : String
  course_name : String
  instructor : Option String
  enrolled_students : List String
deriving Repr, DecidableEq

/-- A snapshot document: top-level JSON mapping.  Each top-level key may be
absent (`none`), which `load_obj_from_json` defaults to the empty list via
`data.get(key, [])`. -/
structure Document where
  students : Option (List StudentRec)
  instructors : Option (List InstructorRec)
  courses : Option (List CourseRec)
deriving Repr, DecidableEq

/-- Scalar fields of a constructed Student object (Student.from_dict copies
scalars only; relationship wiring is done by the Reconciler). -/
structure StudentObj where
  name : String
  age : Int
  email : String
  student_id : String
deriving Repr, DecidableEq

/-- Scalar fields of a constructed Instructor object. -/
structure InstructorObj where
  name : String
  age : Int
  email : String
  instructor_id : String
deriving Repr, DecidableEq

/-- Scalar fields of a constructed Course object (Course.from_dict reads
course_id and course_name only). -/
structure CourseObj where
  course_id : String
  course_name : String
deriving Repr, DecidableEq

/-- The in-memory object graph.  Objects are identified by their position in
the three collections; the four relationship attributes live in positional
maps. `instr ci` models `courses[ci].instructor` (None or an instructor
index), `registered si` models `students[si].registered_courses`, etc. -/
structure Graph where
  students : List StudentObj
  instructors : List InstructorObj
  courses : List CourseObj
  registered : Nat → List Nat
  enrolled : Nat → List Nat
  assigned : Nat → List Nat
  instr : Nat → Option Nat

/-- The empty graph. -/
def Graph.empty : Graph :=
  ⟨[], [], [], fun _ => [], fun _ => [], fun _ => [], fun _ => none⟩

/-- Index lookup of a Python dict comprehension keyed by id: returns the
index of the LAST element carrying the key (later insertions overwrite). -/
def dictIdx (keys : List String) (k : String) : Option Nat :=
  match keys with
  | [] => none
  | x :: xs =>
    match dictIdx xs k with
    | some i => some (i + 1)
    | none => if x = k then some 0 else none

/-- Append x to the list at slot i of a positional map. -/
def updAt (f : Nat → List Nat) (i : Nat) (x : Nat) : Nat → List Nat :=
  fun j => if j = i then f i ++ [x] else f j

/-- Model of `if s not in c.enrolled_students: c.enrolled_students.append(s)`. -/
def addEnrolled (g : Graph) (ci si : Nat) : Graph :=
  if si ∈ g.enrolled ci then g else { g with enrolled := updAt g.enrolled ci si }

/-- Model of `if c not in s.registered_courses: s.registered_courses.append(c)`. -/
def addRegistered (g : Graph) (si ci : Nat) : Graph :=
  if ci ∈ g.registered si then g else { g with registered := updAt g.registered si ci }

/-- Model of `if c not in inst.assigned_courses: inst.assigned_courses.append(c)`. -/
def addAssigned (g : Graph) (ii ci : Nat) : Graph :=
  if ci ∈ g.assigned ii then g else { g with assigned := updAt g.assigned ii ci }

/-- Model of `c.instructor = inst` (unconditional assignment). -/
def setInstr (g : Graph) (ci ii : Nat) : Graph :=
  { g with instr := fun j => if j = ci then some ii else g.instr j }

/-- Model of `if c.instructor is None: c.instructor = inst`. -/
def setInstrIfNone (g : Graph) (ci ii : Nat) : Graph :=
  if g.instr ci = none then setInstr g ci ii else g

/-- One iteration of the pass-3 roster loop: resolve one enrolled_students id
via the student map; if found, link both directions (enrolled first, then
registered), each only if absent. -/
def linkEnrollStep (sKeys : List String) (ci : Nat) (g : Graph) (sid : String) : Graph :=
  match dictIdx sKeys sid with
  | none => g
  | some si => addRegistered (addEnrolled g ci si) si ci

/-- Pass-3 instructor link: `inst_id = cd.get("instructor"); if inst_id:` —
None and the empty string are falsy and skipped; otherwise resolve via the
instructor map, set `c.instructor = inst` and append to assigned_courses if
absent. -/
def courseInstr (iKeys : List String) (ci : Nat) (g : Graph) (inst : Option String) : Graph :=
  match inst with
  | none => g
  | some iid =>
    if iid = "" then g
    else
      match dictIdx iKeys iid with
      | none => g
      | some ii => addAssigned (setInstr g ci ii) ii ci

/-- One pass-3 iteration over a course record: resolve the course, link its
declared instructor, then its roster. -/
def pass3Step (sKeys iKeys cKeys : List String) (g : Graph) (cd : CourseRec) : Graph :=
  match dictIdx cKeys cd.course_id with
  | none => g
  | some ci => cd.enrolled_students.foldl (linkEnrollStep sKeys ci) (courseInstr iKeys ci g cd.instructor)

/-- One iteration of the pass-4 inner loop: resolve one registered_courses id;
if found, link both directions (registered first, then enrolled). -/
def regStep (cKeys : List String) (si : Nat) (g : Graph) (cid : String) : Graph :=
  match dictIdx cKeys cid with
  | none => g
  | some ci => addEnrolled (addRegistered g si ci) ci si

/-- One pass-4 iteration over a student record (student-side cross-check). -/
def pass4Step (sKeys cKeys : List String) (g : Graph) (sd : StudentRec) : Graph :=
  match dictIdx sKeys sd.student_id with
  | none => g
  | some si => sd.registered_courses.foldl (regStep cKeys si) g

/-- One iteration of the pass-5 inner loop: resolve one assigned_courses id;
if found, append to assigned_courses if absent, and set `c.instructor` only
when it is currently None. -/
def asgStep (cKeys : List String) (ii : Nat) (g : Graph) (cid : String) : Graph :=
  match dictIdx cKeys cid with
  | none => g
  | some ci => setInstrIfNone (addAssigned g ii ci) ci ii

/-- One pass-5 iteration over an instructor record (instructor-side
cross-check). -/
def pass5Step (iKeys cKeys : List String) (g : Graph) (idata : InstructorRec) : Graph :=
  match dictIdx iKeys idata.instructor_id with
  | none => g
  | some ii => idata.assigned_courses.foldl (asgStep cKeys ii) g

/-- Students list of a document, with the `data.get("students", [])` default. -/
def Document.sRecs (d : Document) : List StudentRec := d.students.getD []

/-- Instructors list of a document with default. -/
def Document.iRecs (d : Document) : List InstructorRec := d.instructors.getD []

/-- Courses list of a document with default. -/
def Document.cRecs (d : Document) : List CourseRec := d.courses.getD []

/-- The student ids of the records of a document. -/
def Document.sKeys (d : Document) : List String := d.sRecs.map (fun r => r.student_id)

/-- The instructor ids of the records of a document. -/
def Document.iKeys (d : Document) : List String := d.iRecs.map (fun r => r.instructor_id)

/-- The course ids of the records of a document. -/
def Document.cKeys (d : Document) : List String := d.cRecs.map (fun r => r.course_id)

/-- Head test used by the email scan: the next character exists and is not '@'
(the trailing `[^@]+` of the pattern needs one such character). -/
def nextNonAt : List Char → Bool
  | [] => false
  | c2 :: _ => c2 ≠ '@'

/-- Lightweight check for a 'local@domain.tld' pattern, after the first '@'
and one consumed mail-domain character: scan for a '.' that is followed by at
least one further character, with no '@' anywhere on the way (translation of
the unanchored-suffix part of `re.match(r"[^@]+@[^@]+\.[^@]+", email)`). -/
def emailScan : List Char → Bool
  | [] => false
  | c :: cs =>
    if c = '@' then false
    else
      if c = '.' ∧ nextNonAt cs = true then true
      else emailScan cs

/-- After the first '@' the pattern `[^@]+\.[^@]+` needs at least one
domain character before the dot. -/
def emailAfterAt : List Char → Bool
  | [] => false
  | c :: cs => if c = '@' then false else emailScan cs

/-- Model of Person._is_valid_email: `re.match(r"[^@]+@[^@]+\.[^@]+", email)`
matches a prefix consisting of a nonempty '@'-free local part, '@', a
nonempty '@'-free part, '.', and one further non-'@' character. -/
def is_valid_email (email : String) : Bool :=
  match email.data.takeWhile (fun c => c ≠ '@'), email.data.dropWhile (fun c => c ≠ '@') with
  | [], _ => false
  | _ :: _, '@' :: rest => emailAfterAt rest
  | _ :: _, _ => false

/-- Model of Person._is_valid_age: `int(age) >= 0`. -/
def is_valid_age (age : Int) : Bool := decide (0 ≤ age)

/-- Model of Person.__init__: validate age, then email, raising ValueError
(modelled as Except.error) before any field is stored; on success all three
fields are stored. -/
def Person.init (name : String) (age : Int) (email : String) : Except String Person :=
  if is_valid_age age = false then .error "Invalid age value"
  else if is_valid_email email = false then .error "Invalid email format"
  else .ok ⟨name, age, email⟩

/-- Model of Student.from_dict / create_obj_from_dict: construct via
Person.__init__ (so validation applies), then store student_id with an empty
registered_courses list. -/
def studentFromDict (r : StudentRec) : Except String StudentObj :=
  match Person.init r.name r.age r.email with
  | .error e => .error e
  | .ok p => .ok ⟨p.name, p.age, p.email, r.student_id⟩

/-- Model of Instructor.from_dict. -/
def instructorFromDict (r : InstructorRec) : Except String InstructorObj :=
  match Person.init r.name r.age r.email with
  | .error e => .error e
  | .ok p => .ok ⟨p.name, p.age, p.email, r.instructor_id⟩

/-- Model of Course.from_dict: no validation; copies course_id, course_name;
instructor and roster are NOT wired here. -/
def courseFromDict (r : CourseRec) : CourseObj :=
  ⟨r.course_id, r.course_name⟩

/-- Left-to-right effectful map of a Python list comprehension whose element
constructor may raise: the first failure aborts the whole comprehension. -/
def exceptMap {α β : Type} (f : α → Except String β) : List α → Except String (List β)
  | [] => .ok []
  | x :: xs =>
    match f x with
    | .error e => .error e
    | .ok y =>
      match exceptMap f xs with
      | .error e => .error e
      | .ok ys => .ok (y :: ys)

/-- Relationship wiring of DataManager.load_obj_from_json, steps 2-5: index
the already-constructed objects by id, then run the course pass, the
student-side cross-check and the instructor-side cross-check. -/
def wireGraph (d : Document) (studs : List StudentObj) (insts : List InstructorObj)
    (crs : List CourseObj) : Graph :=
  let sKeys := studs.map (fun s => s.student_id)
  let iKeys := insts.map (fun i => i.instructor_id)
  let cKeys := crs.map (fun c => c.course_id)
  let g0 : Graph := ⟨studs, insts, crs, fun _ => [], fun _ => [], fun _ => [], fun _ => none⟩
  let g3 := d.cRecs.foldl (pass3Step sKeys iKeys cKeys) g0
  let g4 := d.sRecs.foldl (pass4Step sKeys cKeys) g3
  d.iRecs.foldl (pass5Step iKeys cKeys) g4

/-- Model of DataManager.load_obj_from_json: recreate Student, Instructor and
Course objects from the document (missing top-level keys default to []),
propagating the first construction error, then restore the relationships. -/
def load_obj_from_json (d : Document) : Except String Graph :=
  match exceptMap studentFromDict d.sRecs with
  | .error e => .error e
  | .ok studs =>
    match exceptMap instructorFromDict d.iRecs with
    | .error e => .error e
    | .ok insts => .ok (wireGraph d studs insts (d.cRecs.map courseFromDict))

/-- The graph loaded from a document, or the empty graph if construction
raised (convenience for stating concrete counterexamples). -/
def loadOrEmpty (d : Document) : Graph :=
  match load_obj_from_json d with
  | .ok g => g
  | .error _ => Graph.empty

/-- Course id of the object at index ci (used by to_dict exports). -/
def cIdOf (g : Graph) (ci : Nat) : String :=
  (g.courses.getD ci ⟨"", ""⟩).course_id

/-- Student id of the object at index si. -/
def sIdOf (g : Graph) (si : Nat) : String :=
  (g.students.getD si ⟨"", 0, "", ""⟩).student_id

/-- Instructor id of the object at index ii. -/
def iIdOf (g : Graph) (ii : Nat) : String :=
  (g.instructors.getD ii ⟨"", 0, "", ""⟩).instructor_id

/-- Student.to_dict of the object at index si: scalars plus the course-id
list of its registered_courses. -/
def studentRecOf (g : Graph) (si : Nat) : StudentRec :=
  { name := (g.students.getD si ⟨"", 0, "", ""⟩).name
    age := (g.students.getD si ⟨"", 0, "", ""⟩).age
    email := (g.students.getD si ⟨"", 0, "", ""⟩).email
    student_id := sIdOf g si
    registered_courses := (g.registered si).map (fun ci => cIdOf g ci) }

/-- Instructor.to_dict of the object at index ii. -/
def instructorRecOf (g : Graph) (ii : Nat) : InstructorRec :=
  { name := (g.instructors.getD ii ⟨"", 0, "", ""⟩).name
    age := (g.instructors.getD ii ⟨"", 0, "", ""⟩).age
    email := (g.instructors.getD ii ⟨"", 0, "", ""⟩).email
    instructor_id := iIdOf g ii
    assigned_courses := (g.assigned ii).map (fun ci => cIdOf g ci) }

/-- Course.to_dict of the object at index ci:
`instructor.instructor_id if instructor else None` and the student-id roster. -/
def courseRecOf (g : Graph) (ci : Nat) : CourseRec :=
  { course_id := cIdOf g ci
    course_name := (g.courses.getD ci ⟨"", ""⟩).course_name
    instructor := (g.instr ci).map (fun ii => iIdOf g ii)
    enrolled_students := (g.enrolled ci).map (fun si => sIdOf g si) }

/-- Model of DataManager.save_to_file: the snapshot document
`{students: [s.to_dict() ...], instructors: [...], courses: [...]}`. -/
def save_to_file (g : Graph) : Document :=
  { students := some ((List.range g.students.length).map (fun si => studentRecOf g si))
    instructors := some ((List.range g.instructors.length).map (fun ii => instructorRecOf g ii))
    courses := some ((List.range g.courses.length).map (fun ci => courseRecOf g ci)) }

/-- Model of Student.register_course on the registered_courses list:
idempotent append. -/
def register_course (registered_courses : List Nat) (course : Nat) : List Nat :=
  if course ∈ registered_courses then registered_courses
  else registered_courses ++ [course]

/-- Model of Course.add_student on the enrolled_students list, with the
`unique` flag of the unified model (default True). -/
def add_student (enrolled_students : List Nat) (student : Nat) (unique : Bool) : List Nat :=
  if unique = true ∧ student ∈ enrolled_students then enrolled_students
  else
    if unique = false ∨ student ∉ enrolled_students then enrolled_students ++ [student]
    else enrolled_students

/-- Model of the unified Instructor.assign_course: first the idempotent-append
of assigned_courses (skipped only when `unique` and already present), then,
if `link_back`, `course.instructor = self`.  Returns the new assigned_courses
list and the new course.instructor. -/
def assign_course (assigned_courses : List Nat) (course_instructor : Option Nat)
    (self course : Nat) (unique link_back : Bool) : List Nat × Option Nat :=
  let ac :=
    if unique = true ∧ course ∈ assigned_courses then assigned_courses
    else assigned_courses ++ [course]
  let ci := if link_back = true then some self else course_instructor
  (ac, ci)

/-- A row of the students table (sid, name, age, email). -/
structure StudentRow where
  sid : String
  name : String
  age : Int
  email : String
deriving Repr, DecidableEq

/-- A row of the instructors table (iid, name, age, email). -/
structure InstructorRow where
  iid : String
  name : String
  age : Int
  email : String
deriving Repr, DecidableEq

/-- A row of the courses table (cid, name, nullable iid). -/
structure CourseRow where
  cid : String
  name : String
  iid : Option String
deriving Repr, DecidableEq

/-- A row of the enrollments table (cid, sid). -/
structure EnrollmentRow where
  cid : String
  sid : String
deriving Repr, DecidableEq

/-- The relational store state (the four tables of the unified schema). -/
structure SchoolDB where
  students : List StudentRow
  instructors : List InstructorRow
  courses : List CourseRow
  enrollments : List EnrollmentRow
deriving Repr, DecidableEq

/-- Model of db_manager.delete_instructor:
`UPDATE courses SET iid=NULL WHERE iid=?` then
`DELETE FROM instructors WHERE iid=?`. -/
def delete_instructor (db : SchoolDB) (iid : String) : SchoolDB :=
  { db with
    courses := db.courses.map (fun c => if c.iid = some iid then { c with iid := none } else c)
    instructors := db.instructors.filter (fun r => r.iid ≠ iid) }

/-- ORDER BY name on student rows. -/
def studentRowLe (a b : StudentRow) : Prop := a.name ≤ b.name

/-- ORDER BY name on instructor rows. -/
def instructorRowLe (a b : InstructorRow) : Prop := a.name ≤ b.name

/-- A result row of list_courses: (cid, name, iid, enrolled count). -/
structure CourseListRow where
  cid : String
  name : String
  iid : Option String
  enrolled : Nat
deriving Repr, DecidableEq

/-- ORDER BY cid on list_courses result rows. -/
def courseListRowLe (a b : CourseListRow) : Prop := a.cid ≤ b.cid

/-- ORDER BY the name component on (id, name) result pairs. -/
def pairNameLe (a b : String × String) : Prop := a.2 ≤ b.2

instance : DecidableRel studentRowLe :=
  fun a b => inferInstanceAs (Decidable (a.name ≤ b.name))

instance : DecidableRel instructorRowLe :=
  fun a b => inferInstanceAs (Decidable (a.name ≤ b.name))

instance : DecidableRel courseListRowLe :=
  fun a b => inferInstanceAs (Decidable (a.cid ≤ b.cid))

instance : DecidableRel pairNameLe :=
  fun a b => inferInstanceAs (Decidable (a.2 ≤ b.2))

instance : IsTotal StudentRow studentRowLe := ⟨fun a b => le_total a.name b.name⟩

instance : IsTrans StudentRow studentRowLe := ⟨fun _ _ _ h1 h2 => le_trans h1 h2⟩

instance : IsTotal InstructorRow instructorRowLe := ⟨fun a b => le_total a.name b.name⟩

instance : IsTrans InstructorRow instructorRowLe := ⟨fun _ _ _ h1 h2 => le_trans h1 h2⟩

instance : IsTotal CourseListRow courseListRowLe := ⟨fun a b => le_total a.cid b.cid⟩

instance : IsTrans CourseListRow courseListRowLe := ⟨fun _ _ _ h1 h2 => le_trans h1 h2⟩

instance : IsTotal (String × String) pairNameLe := ⟨fun a b => le_total a.2 b.2⟩

instance : IsTrans (String × String) pairNameLe := ⟨fun _ _ _ h1 h2 => le_trans h1 h2⟩

/-- Model of list_students:
`SELECT sid, name, age, email FROM students ORDER BY name ASC`. -/
def list_students (db : SchoolDB) : List StudentRow :=
  List.insertionSort studentRowLe db.students

/-- Model of list_instructors:
`SELECT iid, name, age, email FROM instructors ORDER BY name ASC`. -/
def list_instructors (db : SchoolDB) : List InstructorRow :=
  List.insertionSort instructorRowLe db.instructors

/-- The unsorted list_courses query result: each course row with its
enrollment count (the COALESCE(... COUNT(*) ...) subquery). -/
def coursesQuery (db : SchoolDB) : List CourseListRow :=
  db.courses.map (fun c =>
    ⟨c.cid, c.name, c.iid, (db.enrollments.filter (fun e => e.cid = c.cid)).length⟩)

/-- Model of list_courses: the enrollment-counting query ORDER BY cid ASC. -/
def list_courses (db : SchoolDB) : List CourseListRow :=
  List.insertionSort courseListRowLe (coursesQuery db)

/-- The unsorted course-roster join:
enrollments of the course joined with students on sid, projected to (sid, name). -/
def rosterQuery (db : SchoolDB) (cid : String) : List (String × String) :=
  (db.enrollments.filter (fun e => e.cid = cid)).flatMap
    (fun e => (db.students.filter (fun s => s.sid = e.sid)).map (fun s => (s.sid, s.name)))

/-- Model of list_course_roster: the roster join ORDER BY s.name ASC. -/
def list_course_roster (db : SchoolDB) (cid : String) : List (String × String) :=
  List.insertionSort pairNameLe (rosterQuery db cid)

/-- The unsorted student-courses join: enrollments of the student joined with
courses on cid, projected to (cid, name). -/
def studentCoursesQuery (db : SchoolDB) (sid : String) : List (String × String) :=
  (db.enrollments.filter (fun e => e.sid = sid)).flatMap
    (fun e => (db.courses.filter (fun c => c.cid = e.cid)).map (fun c => (c.cid, c.name)))

/-- Model of list_student_courses: the join ORDER BY c.name ASC. -/
def list_student_courses (db : SchoolDB) (sid : String) : List (String × String) :=
  List.insertionSort pairNameLe (studentCoursesQuery db sid)

/-- The symmetric enrollment invariant of §8:
`student ∈ course.enrolled_students ⟺ course ∈ student.registered_courses`. -/
def studentSym (g : Graph) : Prop :=
  ∀ si ci, si ∈ g.enrolled ci ↔ ci ∈ g.registered si

/-- The forward instructor link: whenever `course.instructor == I`, the course
is in I.assigned_courses. -/
def instrLinked (g : Graph) : Prop :=
  ∀ ci ii, g.instr ci = some ii → ci ∈ g.assigned ii

/-- The full symmetric instructor invariant of §8:
`course.instructor == I ⟺ course ∈ I.assigned_courses`. -/
def instrSym (g : Graph) : Prop :=
  ∀ ci ii, g.instr ci = some ii ↔ ci ∈ g.assigned ii

/-- The student ids of a graph's student collection. -/
def sIds (g : Graph) : List String := g.students.map (fun s => s.student_id)

/-- The instructor ids of a graph's instructor collection. -/
def iIds (g : Graph) : List String := g.instructors.map (fun i => i.instructor_id)

/-- The course ids of a graph's course collection. -/
def cIds (g : Graph) : List String := g.courses.map (fun c => c.course_id)

/-- Closure of the object graph: every relationship reference points at an
object of the graph's own collections, and slots outside the collections are
empty (out-of-range positions hold no objects). -/
def ClosedGraph (g : Graph) : Prop :=
  (∀ si, si < g.students.length → ∀ ci ∈ g.registered si, ci < g.courses.length) ∧
  (∀ si, g.students.length ≤ si → g.registered si = []) ∧
  (∀ ci, ci < g.courses.length → ∀ si ∈ g.enrolled ci, si < g.students.length) ∧
  (∀ ci, g.courses.length ≤ ci → g.enrolled ci = []) ∧
  (∀ ci ii, g.instr ci = some ii → ci < g.courses.length ∧ ii < g.instructors.length) ∧
  (∀ ii, ii < g.instructors.length → ∀ ci ∈ g.assigned ii, ci < g.courses.length) ∧
  (∀ ii, g.instructors.length ≤ ii → g.assigned ii = [])

/-- Scalar validity of the graph's persons (ages and emails pass the
Person.__init__ checks, as they must for objects built through it). -/
def ValidGraph (g : Graph) : Prop :=
  (∀ s ∈ g.students, is_valid_age s.age = true ∧ is_valid_email s.email = true) ∧
  (∀ i ∈ g.instructors, is_valid_age i.age = true ∧ is_valid_email i.email = true)

/-- The student object a successful Student.from_dict returns for a record. -/
def sObjOf (r : StudentRec) : StudentObj := ⟨r.name, r.age, r.email, r.student_id⟩

/-- The instructor object a successful Instructor.from_dict returns. -/
def iObjOf (r : InstructorRec) : InstructorObj := ⟨r.name, r.age, r.email, r.instructor_id⟩

/-- The three object collections of a graph, bundled (for stating that the
reconciliation passes never touch them). -/
def Graph.objs (g : Graph) : List StudentObj × List InstructorObj × List CourseObj :=
  (g.students, g.instructors, g.courses)

/-- Edge inclusion between graphs: every registered/enrolled/assigned edge of
the first is an edge of the second (the reconciliation passes only add). -/
def edgesLe (g g' : Graph) : Prop :=
  (∀ si ci, ci ∈ g.registered si → ci ∈ g'.registered si) ∧
  (∀ ci si, si ∈ g.enrolled ci → si ∈ g'.enrolled ci) ∧
  (∀ ii ci, ci ∈ g.assigned ii → ci ∈ g'.assigned ii)

/-- A document exhibiting the pass-5 one-sided instructor edge: the course
record names I1, while I2's record also claims course C. -/
def docConflict : Document :=
  ⟨some [], some [⟨"N", 0, "a@b.c", "I1", []⟩, ⟨"N", 0, "a@b.c", "I2", ["C"]⟩],
   some [⟨"C", "CN", some "I1", []⟩]⟩

/-- A consistent one-student / one-instructor / one-course document used as a
concrete witness input. -/
def docSmall : Document :=
  ⟨some [⟨"Alice", 20, "a@b.c", "S1", ["C1"]⟩],
   some [⟨"DrX", 50, "x@y.z", "I1", ["C1"]⟩],
   some [⟨"C1", "Algorithms", some "I1", ["S1"]⟩]⟩

/-- An asymmetric in-memory graph: the course's instructor is set but the
instructor's assigned_courses list is empty (constructible in the source via
`Course(course_id, course_name, instructor)`). -/
def graphAsym : Graph :=
  { students := [], instructors := [⟨"N", 0, "a@b.c", "I"⟩], courses := [⟨"C", "CN"⟩]
    registered := fun _ => [], enrolled := fun _ => []
    assigned := fun _ => [], instr := fun ci => if ci = 0 then some 0 else none }

/-- A fully symmetric, closed, valid one-of-each graph used as a concrete
witness input for the round-trip law. -/
def graphSmall : Graph :=
  { students := [⟨"Alice", 20, "a@b.c", "S1"⟩], instructors := [⟨"DrX", 50, "x@y.z", "I1"⟩]
    courses := [⟨"C1", "Algorithms"⟩]
    registered := fun si => if si = 0 then [0] else []
    enrolled := fun ci => if ci = 0 then [0] else []
    assigned := fun ii => if ii = 0 then [0] else []
    instr := fun ci => if ci = 0 then some 0 else none }

/-- A small database: instructor I teaches C1 and C2, instructor J teaches
nothing, one student enrolled in C1. -/
def dbSmall : SchoolDB :=
  { students := [⟨"S1", "Alice", 20, "a@b.c"⟩]
    instructors := [⟨"I", "DrX", 50, "x@y.z"⟩, ⟨"J", "DrY", 40, "y@z.w"⟩]
    courses := [⟨"C1", "Algorithms", some "I"⟩, ⟨"C2", "Graphs", some "I"⟩]
    enrollments := [⟨"C1", "S1"⟩] }

/-- A derivation of a registered/enrolled edge from the document: either some
course record resolving to ci lists a student id resolving to si, or some
student record resolving to si lists a course id resolving to ci.  These are
exactly the two loops (pass 3 roster, pass 4 cross-check) that create such
edges. -/
def regSource (d : Document) (si ci : Nat) : Prop :=
  (∃ cd ∈ d.cRecs, dictIdx d.cKeys cd.course_id = some ci ∧
    ∃ sid ∈ cd.enrolled_students, dictIdx d.sKeys sid = some si) ∨
  (∃ sr ∈ d.sRecs, dictIdx d.sKeys sr.student_id = some si ∧
    ∃ cid ∈ sr.registered_courses, dictIdx d.cKeys cid = some ci)

/-- A derivation of an assigned edge from the document: either some course
record resolving to ci names (truthily) an instructor id resolving to ii, or
some instructor record resolving to ii lists a course id resolving to ci. -/
def asgSource (d : Document) (ii ci : Nat) : Prop :=
  (∃ cd ∈ d.cRecs, dictIdx d.cKeys cd.course_id = some ci ∧
    ∃ iid, cd.instructor = some iid ∧ iid ≠ "" ∧ dictIdx d.iKeys iid = some ii) ∨
  (∃ ir ∈ d.iRecs, dictIdx d.iKeys ir.instructor_id = some ii ∧
    ∃ cid ∈ ir.assigned_courses, dictIdx d.cKeys cid = some ci)

/-
Theorems.  First the generic fold and dictionary lemmas, then the step
algebra of the Reconciler, then one theorem per specification claim.
-/

/-- A property preserved by every step of a fold is preserved by the fold. -/
theorem foldl_preserve {α β : Type} (step : α → β → α) (P : α → Prop) :
    ∀ (l : List β) (g : α), (∀ a x, x ∈ l → P a → P (step a x)) → P g →
      P (List.foldl step g l)
  | [], _, _, hP => hP
  | x :: xs, g, h, hP =>
    foldl_preserve step P xs (step g x)
      (fun a y hy => h a y (List.mem_cons_of_mem x hy))
      (h g x (List.mem_cons_self x xs) hP)

/-- Establish a property at a distinguished element of a fold and keep it:
the steps before maintain P, the distinguished step turns P into Q, and the
steps after maintain Q. -/
theorem foldl_establish {α β : Type} (step : α → β → α) (P Q : α → Prop)
    (l₁ : List β) (x : β) (l₂ : List β) (g : α)
    (h₁ : ∀ a y, y ∈ l₁ → P a → P (step a y))
    (hx : ∀ a, P a → Q (step a x))
    (h₂ : ∀ a y, y ∈ l₂ → Q a → Q (step a y))
    (hP : P g) : Q (List.foldl step g (l₁ ++ x :: l₂)) := by
  rw [List.foldl_append, List.foldl_cons]
  exact foldl_preserve step Q l₂ _ (fun a y hy => h₂ a y hy)
    (hx _ (foldl_preserve step P l₁ g h₁ hP))

/-- A successful dict lookup returns an in-range index holding the key. -/
theorem dictIdx_some {keys : List String} {k : String} {i : Nat} :
    dictIdx keys k = some i → i < keys.length ∧ keys.get? i = some k := by
  induction keys generalizing i with
  | nil => intro h; simp [dictIdx] at h
  | cons x xs ih =>
    intro h
    unfold dictIdx at h
    cases hx : dictIdx xs k with
    | some j =>
      rw [hx] at h
      cases h
      obtain ⟨h1, h2⟩ := ih hx
      exact ⟨by simpa using Nat.succ_lt_succ h1, by simpa using h2⟩
    | none =>
      rw [hx] at h
      by_cases hxk : x = k
      · simp [hxk] at h
        cases h
        simp [hxk]
      · simp [hxk] at h

/-- A key that is absent from the list never resolves. -/
theorem dictIdx_of_not_mem {keys : List String} {k : String} (h : k ∉ keys) :
    dictIdx keys k = none := by
  induction keys with
  | nil => rfl
  | cons x xs ih =>
    have hx : x ≠ k := fun hxk => h (hxk ▸ List.mem_cons_self x xs)
    have hk : k ∉ xs := fun hm => h (List.mem_cons_of_mem x hm)
    unfold dictIdx
    rw [ih hk]
    simp [hx]

/-- On a duplicate-free key list the lookup returns each key's own index. -/
theorem dictIdx_get {keys : List String} (hnd : keys.Nodup) {i : Nat} {k : String}
    (h : keys.get? i = some k) : dictIdx keys k = some i := by
  induction keys generalizing i with
  | nil => simp at h
  | cons x xs ih =>
    cases i with
    | zero =>
      simp at h
      subst h
      have : x ∉ xs := (List.nodup_cons.mp hnd).1
      unfold dictIdx
      rw [dictIdx_of_not_mem this]
      simp
    | succ j =>
      simp only [List.get?_cons_succ] at h
      have := ih (List.nodup_cons.mp hnd).2 h
      unfold dictIdx
      rw [this]

/-- A resolvable key is a member of the key list. -/
theorem dictIdx_mem {keys : List String} {k : String} {i : Nat}
    (h : dictIdx keys k = some i) : k ∈ keys := by
  obtain ⟨h1, h2⟩ := dictIdx_some h
  exact List.get?_mem h2

/-- C6: calling the registration primitives twice with the same pair leaves
exactly one occurrence, provided the collections respect the no-duplicates
invariant of the data model (at most one prior occurrence). -/
theorem registration_idempotent (regs enr : List Nat) (s c : Nat)
    (h1 : regs.count c ≤ 1) (h2 : enr.count s ≤ 1) :
    (register_course (register_course regs c) c).count c = 1 ∧
    (add_student (add_student enr s true) s true).count s = 1 := by
  constructor
  · by_cases hc : c ∈ regs
    · have hpos : 0 < regs.count c := List.count_pos_iff.mpr hc
      have e : register_course regs c = regs := by simp [register_course, hc]
      rw [e, e]
      omega
    · have h0 : regs.count c = 0 := List.count_eq_zero.mpr hc
      have e1 : register_course regs c = regs ++ [c] := by simp [register_course, hc]
      have e2 : register_course (regs ++ [c]) c = regs ++ [c] := by
        simp [register_course]
      rw [e1, e2]
      simp [List.count_append, h0]
  · by_cases hs : s ∈ enr
    · have hpos : 0 < enr.count s := List.count_pos_iff.mpr hs
      have e : add_student enr s true = enr := by simp [add_student, hs]
      rw [e, e]
      omega
    · have h0 : enr.count s = 0 := List.count_eq_zero.mpr hs
      have e1 : add_student enr s true = enr ++ [s] := by simp [add_student, hs]
      have e2 : add_student (enr ++ [s]) s true = enr ++ [s] := by
        simp [add_student]
      rw [e1, e2]
      simp [List.count_append, h0]

/-- C6 witness: registering the pair (0, 1) twice from empty collections
leaves exactly one occurrence on each side. -/
theorem registration_idempotent_witness :
    (register_course (register_course [] 1) 1).count 1 = 1 ∧
    (add_student (add_student [] 0 true) 0 true).count 0 = 1 :=
  registration_idempotent [] [] 0 1 (by decide) (by decide)

/-- C7 counterexample: a call of the unified Instructor.assign_course with
link_back=False after which course.instructor is not the calling instructor
(the flag makes the link-back optional, not unconditional). -/
theorem assign_course_linkback_counterexample :
    (assign_course [] none 0 1 true false).2 ≠ some 0 := by decide

/-- C7 amended: every call of the unified Instructor.assign_course with
link_back=True — its default — sets course.instructor to the calling
instructor; a call that passes link_back=False leaves it unchanged. -/
theorem assign_course_linkback_default (ac : List Nat) (ci : Option Nat)
    (self course : Nat) (unique : Bool) :
    (assign_course ac ci self course unique true).2 = some self ∧
    (assign_course ac ci self course unique false).2 = ci :=
  ⟨rfl, rfl⟩

/-- Helper: a negative age makes Person.__init__ raise the age ValueError. -/
theorem person_init_neg_age {name : String} {age : Int} {email : String}
    (h : age < 0) : Person.init name age email = .error "Invalid age value" := by
  have hva : is_valid_age age = false := by
    simp [is_valid_age]
    omega
  simp [Person.init, hva]

/-- Helper: with a valid age but an invalid email, Person.__init__ raises the
email ValueError. -/
theorem person_init_bad_email {name : String} {age : Int} {email : String}
    (ha : 0 ≤ age) (he : is_valid_email email = false) :
    Person.init name age email = .error "Invalid email format" := by
  have hva : is_valid_age age = true := by simp [is_valid_age, ha]
  simp [Person.init, hva, he]

/-- Helper: valid age and email make Person.__init__ succeed and store all
three fields. -/
theorem person_init_ok {name : String} {age : Int} {email : String}
    (ha : 0 ≤ age) (he : is_valid_email email = true) :
    Person.init name age email = .ok ⟨name, age, email⟩ := by
  have hva : is_valid_age age = true := by simp [is_valid_age, ha]
  simp [Person.init, hva, he]

/-- C8: constructing a Person — and hence a Student or an Instructor, whose
constructors run Person.__init__ first — with a negative age or a
pattern-rejected email raises ValueError with no object produced (no partial
state), while a non-negative age and a pattern-matching email construct the
object with all fields stored. -/
theorem person_validation (name : String) (age : Int) (email : String)
    (sid iid : String) (rcs acs : List String) :
    ((age < 0 ∨ is_valid_email email = false) →
      (∃ e, Person.init name age email = .error e) ∧
      (∃ e, studentFromDict ⟨name, age, email, sid, rcs⟩ = .error e) ∧
      (∃ e, instructorFromDict ⟨name, age, email, iid, acs⟩ = .error e)) ∧
    (0 ≤ age → is_valid_email email = true →
      Person.init name age email = .ok ⟨name, age, email⟩ ∧
      studentFromDict ⟨name, age, email, sid, rcs⟩ = .ok ⟨name, age, email, sid⟩ ∧
      instructorFromDict ⟨name, age, email, iid, acs⟩ = .ok ⟨name, age, email, iid⟩) := by
  constructor
  · intro h
    by_cases hage : 0 ≤ age
    · have he : is_valid_email email = false := by
        rcases h with h | h
        · omega
        · exact h
      have hp := @person_init_bad_email name age email hage he
      exact ⟨⟨_, hp⟩, ⟨"Invalid email format", by simp [studentFromDict, hp]⟩,
        ⟨"Invalid email format", by simp [instructorFromDict, hp]⟩⟩
    · have hneg : age < 0 := by omega
      have hp := @person_init_neg_age name age email hneg
      exact ⟨⟨_, hp⟩, ⟨"Invalid age value", by simp [studentFromDict, hp]⟩,
        ⟨"Invalid age value", by simp [instructorFromDict, hp]⟩⟩
  · intro ha he
    have hp := @person_init_ok name age email ha he
    exact ⟨hp, by simp [studentFromDict, hp], by simp [instructorFromDict, hp]⟩

/-- C8 witness: age -1 is rejected, and ("Ada", 25, "a@b.c") is accepted with
all fields stored. -/
theorem person_validation_witness :
    (∃ e, Person.init "Ada" (-1) "a@b.c" = .error e) ∧
    Person.init "Ada" 25 "a@b.c" = .ok ⟨"Ada", 25, "a@b.c"⟩ :=
  ⟨((person_validation "Ada" (-1) "a@b.c" "S" "I" [] []).1 (Or.inl (by decide))).1,
   ((person_validation "Ada" 25 "a@b.c" "S" "I" [] []).2 (by decide) (by decide)).1⟩

/-- C5: deleting an instructor nulls the iid of every course row that
referenced them while keeping the course rows (same position, cid and name)
and all enrollment and student rows; the instructor's own rows are removed
and all other instructor rows are kept. -/
theorem delete_instructor_cascade (db : SchoolDB) (iid : String) :
    (delete_instructor db iid).students = db.students ∧
    (delete_instructor db iid).enrollments = db.enrollments ∧
    (delete_instructor db iid).courses.length = db.courses.length ∧
    (∀ (i : Nat) (c : CourseRow), db.courses[i]? = some c →
      ∃ c', (delete_instructor db iid).courses[i]? = some c' ∧
        c'.cid = c.cid ∧ c'.name = c.name ∧
        c'.iid = (if c.iid = some iid then none else c.iid)) ∧
    (∀ r ∈ (delete_instructor db iid).instructors, r.iid ≠ iid) ∧
    (∀ r ∈ db.instructors, r.iid ≠ iid → r ∈ (delete_instructor db iid).instructors) := by
  refine ⟨rfl, rfl, by simp [delete_instructor], ?_, ?_, ?_⟩
  · intro i c h
    by_cases hc : c.iid = some iid
    · exact ⟨{ c with iid := none }, by simp [delete_instructor, List.getElem?_map, h, hc],
        rfl, rfl, by simp [hc]⟩
    · exact ⟨c, by simp [delete_instructor, List.getElem?_map, h, hc], rfl, rfl, by simp [hc]⟩
  · intro r hr
    have := (List.mem_filter.mp hr).2
    simpa using this
  · intro r hr hne
    exact List.mem_filter.mpr ⟨hr, by simpa using hne⟩

/-- C5 witness: in dbSmall, deleting instructor I nulls course C1's iid while
keeping its cid and name, and the enrollment rows are untouched. -/
theorem delete_instructor_cascade_witness :
    (∃ c', (delete_instructor dbSmall "I").courses[0]? = some c' ∧
      c'.cid = "C1" ∧ c'.name = "Algorithms" ∧ c'.iid = none) ∧
    (delete_instructor dbSmall "I").enrollments = dbSmall.enrollments := by
  refine ⟨?_, (delete_instructor_cascade dbSmall "I").2.1⟩
  obtain ⟨c', h1, h2, h3, h4⟩ :=
    (delete_instructor_cascade dbSmall "I").2.2.2.1 0 ⟨"C1", "Algorithms", some "I"⟩ rfl
  exact ⟨c', h1, h2, h3, by simpa using h4⟩

/-- C9: each list operation of the relational store returns, for a fixed
database state, exactly the rows of its underlying query (a permutation)
arranged in the canonical order of its ORDER BY key — by name for students,
instructors, rosters and a student's courses, by id for courses — so repeated
invocations on the same state return the same sequence. -/
theorem list_operations_canonical_order (db : SchoolDB) (cid sid : String) :
    (list_students db).Sorted studentRowLe ∧ (list_students db).Perm db.students ∧
    (list_instructors db).Sorted instructorRowLe ∧
    (list_instructors db).Perm db.instructors ∧
    (list_courses db).Sorted courseListRowLe ∧ (list_courses db).Perm (coursesQuery db) ∧
    (list_course_roster db cid).Sorted pairNameLe ∧
    (list_course_roster db cid).Perm (rosterQuery db cid) ∧
    (list_student_courses db sid).Sorted pairNameLe ∧
    (list_student_courses db sid).Perm (studentCoursesQuery db sid) :=
  ⟨List.sorted_insertionSort studentRowLe db.students,
   List.perm_insertionSort studentRowLe db.students,
   List.sorted_insertionSort instructorRowLe db.instructors,
   List.perm_insertionSort instructorRowLe db.instructors,
   List.sorted_insertionSort courseListRowLe (coursesQuery db),
   List.perm_insertionSort courseListRowLe (coursesQuery db),
   List.sorted_insertionSort pairNameLe (rosterQuery db cid),
   List.perm_insertionSort pairNameLe (rosterQuery db cid),
   List.sorted_insertionSort pairNameLe (studentCoursesQuery db sid),
   List.perm_insertionSort pairNameLe (studentCoursesQuery db sid)⟩

/-- Component extraction from an objs equality. -/
theorem objs_students {g g' : Graph} (h : g.objs = g'.objs) : g.students = g'.students :=
  congrArg Prod.fst h

/-- Component extraction from an objs equality. -/
theorem objs_instructors {g g' : Graph} (h : g.objs = g'.objs) : g.instructors = g'.instructors :=
  congrArg (fun p => p.2.1) h

/-- Component extraction from an objs equality. -/
theorem objs_courses {g g' : Graph} (h : g.objs = g'.objs) : g.courses = g'.courses :=
  congrArg (fun p => p.2.2) h

/-- addEnrolled leaves the object collections unchanged. -/
theorem addEnrolled_objs (g : Graph) (ci si : Nat) : (addEnrolled g ci si).objs = g.objs := by
  unfold addEnrolled
  split <;> rfl

/-- addEnrolled leaves registered_courses unchanged. -/
theorem addEnrolled_registered (g : Graph) (ci si : Nat) :
    (addEnrolled g ci si).registered = g.registered := by
  unfold addEnrolled
  split <;> rfl

/-- addEnrolled leaves assigned_courses unchanged. -/
theorem addEnrolled_assigned (g : Graph) (ci si : Nat) :
    (addEnrolled g ci si).assigned = g.assigned := by
  unfold addEnrolled
  split <;> rfl

/-- addEnrolled leaves course.instructor unchanged. -/
theorem addEnrolled_instr (g : Graph) (ci si : Nat) :
    (addEnrolled g ci si).instr = g.instr := by
  unfold addEnrolled
  split <;> rfl

/-- Membership after addEnrolled: the old edges plus possibly the new pair. -/
theorem mem_enrolled_addEnrolled (g : Graph) (ci si sj cj : Nat) :
    sj ∈ (addEnrolled g ci si).enrolled cj ↔ sj ∈ g.enrolled cj ∨ (cj = ci ∧ sj = si) := by
  unfold addEnrolled
  split
  · rename_i hmem
    constructor
    · exact Or.inl
    · rintro (h | ⟨rfl, rfl⟩)
      · exact h
      · exact hmem
  · by_cases hj : cj = ci
    · subst hj
      simp [updAt]
    · simp [updAt, hj]

/-- addRegistered leaves the object collections unchanged. -/
theorem addRegistered_objs (g : Graph) (si ci : Nat) : (addRegistered g si ci).objs = g.objs := by
  unfold addRegistered
  split <;> rfl

/-- addRegistered leaves enrolled_students unchanged. -/
theorem addRegistered_enrolled (g : Graph) (si ci : Nat) :
    (addRegistered g si ci).enrolled = g.enrolled := by
  unfold addRegistered
  split <;> rfl

/-- addRegistered leaves assigned_courses unchanged. -/
theorem addRegistered_assigned (g : Graph) (si ci : Nat) :
    (addRegistered g si ci).assigned = g.assigned := by
  unfold addRegistered
  split <;> rfl

/-- addRegistered leaves course.instructor unchanged. -/
theorem addRegistered_instr (g : Graph) (si ci : Nat) :
    (addRegistered g si ci).instr = g.instr := by
  unfold addRegistered
  split <;> rfl

/-- Membership after addRegistered: the old edges plus possibly the new pair. -/
theorem mem_registered_addRegistered (g : Graph) (si ci cj sj : Nat) :
    cj ∈ (addRegistered g si ci).registered sj ↔ cj ∈ g.registered sj ∨ (sj = si ∧ cj = ci) := by
  unfold addRegistered
  split
  · rename_i hmem
    constructor
    · exact Or.inl
    · rintro (h | ⟨rfl, rfl⟩)
      · exact h
      · exact hmem
  · by_cases hj : sj = si
    · subst hj
      simp [updAt]
    · simp [updAt, hj]

/-- addAssigned leaves the object collections unchanged. -/
theorem addAssigned_objs (g : Graph) (ii ci : Nat) : (addAssigned g ii ci).objs = g.objs := by
  unfold addAssigned
  split <;> rfl

/-- addAssigned leaves registered_courses unchanged. -/
theorem addAssigned_registered (g : Graph) (ii ci : Nat) :
    (addAssigned g ii ci).registered = g.registered := by
  unfold addAssigned
  split <;> rfl

/-- addAssigned leaves enrolled_students unchanged. -/
theorem addAssigned_enrolled (g : Graph) (ii ci : Nat) :
    (addAssigned g ii ci).enrolled = g.enrolled := by
  unfold addAssigned
  split <;> rfl

/-- addAssigned leaves course.instructor unchanged. -/
theorem addAssigned_instr (g : Graph) (ii ci : Nat) :
    (addAssigned g ii ci).instr = g.instr := by
  unfold addAssigned
  split <;> rfl

/-- Membership after addAssigned: the old edges plus possibly the new pair. -/
theorem mem_assigned_addAssigned (g : Graph) (ii ci cj ij : Nat) :
    cj ∈ (addAssigned g ii ci).assigned ij ↔ cj ∈ g.assigned ij ∨ (ij = ii ∧ cj = ci) := by
  unfold addAssigned
  split
  · rename_i hmem
    constructor
    · exact Or.inl
    · rintro (h | ⟨rfl, rfl⟩)
      · exact h
      · exact hmem
  · by_cases hj : ij = ii
    · subst hj
      simp [updAt]
    · simp [updAt, hj]

/-- setInstr leaves the object collections unchanged. -/
theorem setInstr_objs (g : Graph) (ci ii : Nat) : (setInstr g ci ii).objs = g.objs := rfl

/-- setInstr leaves registered_courses unchanged. -/
theorem setInstr_registered (g : Graph) (ci ii : Nat) :
    (setInstr g ci ii).registered = g.registered := rfl

/-- setInstr leaves enrolled_students unchanged. -/
theorem setInstr_enrolled (g : Graph) (ci ii : Nat) :
    (setInstr g ci ii).enrolled = g.enrolled := rfl

/-- setInstr leaves assigned_courses unchanged. -/
theorem setInstr_assigned (g : Graph) (ci ii : Nat) :
    (setInstr g ci ii).assigned = g.assigned := rfl

/-- Pointwise effect of setInstr. -/
theorem setInstr_instr (g : Graph) (ci ii cj : Nat) :
    (setInstr g ci ii).instr cj = if cj = ci then some ii else g.instr cj := rfl

/-- setInstrIfNone leaves the object collections unchanged. -/
theorem setInstrIfNone_objs (g : Graph) (ci ii : Nat) :
    (setInstrIfNone g ci ii).objs = g.objs := by
  unfold setInstrIfNone
  split <;> rfl

/-- setInstrIfNone leaves registered_courses unchanged. -/
theorem setInstrIfNone_registered (g : Graph) (ci ii : Nat) :
    (setInstrIfNone g ci ii).registered = g.registered := by
  unfold setInstrIfNone
  split <;> rfl

/-- setInstrIfNone leaves enrolled_students unchanged. -/
theorem setInstrIfNone_enrolled (g : Graph) (ci ii : Nat) :
    (setInstrIfNone g ci ii).enrolled = g.enrolled := by
  unfold setInstrIfNone
  split <;> rfl

/-- setInstrIfNone leaves assigned_courses unchanged. -/
theorem setInstrIfNone_assigned (g : Graph) (ci ii : Nat) :
    (setInstrIfNone g ci ii).assigned = g.assigned := by
  unfold setInstrIfNone
  split <;> rfl

/-- Pointwise effect of setInstrIfNone: only a null instructor slot at the
targeted course is written. -/
theorem setInstrIfNone_instr (g : Graph) (ci ii cj : Nat) :
    (setInstrIfNone g ci ii).instr cj =
      if cj = ci ∧ g.instr ci = none then some ii else g.instr cj := by
  unfold setInstrIfNone
  split
  · rename_i hnone
    rw [setInstr_instr]
    by_cases hj : cj = ci
    · simp [hj, hnone]
    · simp [hj]
  · rename_i hsome
    by_cases hj : cj = ci
    · simp [hj, hsome]
    · simp [hj]

/-- The pass-3 instructor link leaves the object collections unchanged. -/
theorem courseInstr_objs (iKeys : List String) (ci : Nat) (g : Graph) (inst : Option String) :
    (courseInstr iKeys ci g inst).objs = g.objs := by
  unfold courseInstr
  cases inst with
  | none => rfl
  | some iid =>
    by_cases h : iid = ""
    · simp [h]
    · simp only [if_neg h]
      cases hd : dictIdx iKeys iid with
      | none => rfl
      | some ii => rw [addAssigned_objs, setInstr_objs]

/-- The pass-3 instructor link leaves enrolled_students unchanged. -/
theorem courseInstr_enrolled (iKeys : List String) (ci : Nat) (g : Graph) (inst : Option String) :
    (courseInstr iKeys ci g inst).enrolled = g.enrolled := by
  unfold courseInstr
  cases inst with
  | none => rfl
  | some iid =>
    by_cases h : iid = ""
    · simp [h]
    · simp only [if_neg h]
      cases hd : dictIdx iKeys iid with
      | none => rfl
      | some ii => rw [addAssigned_enrolled, setInstr_enrolled]

/-- The pass-3 instructor link leaves registered_courses unchanged. -/
theorem courseInstr_registered (iKeys : List String) (ci : Nat) (g : Graph) (inst : Option String) :
    (courseInstr iKeys ci g inst).registered = g.registered := by
  unfold courseInstr
  cases inst with
  | none => rfl
  | some iid =>
    by_cases h : iid = ""
    · simp [h]
    · simp only [if_neg h]
      cases hd : dictIdx iKeys iid with
      | none => rfl
      | some ii => rw [addAssigned_registered, setInstr_registered]

/-- A paired enroll-then-register mutation preserves the enrollment symmetry
invariant. -/
theorem studentSym_link (g : Graph) (ci si : Nat) (h : studentSym g) :
    studentSym (addRegistered (addEnrolled g ci si) si ci) := by
  intro sj cj
  rw [show (addRegistered (addEnrolled g ci si) si ci).enrolled = (addEnrolled g ci si).enrolled
      from addRegistered_enrolled _ _ _]
  rw [mem_enrolled_addEnrolled]
  rw [mem_registered_addRegistered]
  rw [show (addEnrolled g ci si).registered = g.registered from addEnrolled_registered _ _ _]
  rw [h sj cj]
  tauto

/-- A paired register-then-enroll mutation preserves the enrollment symmetry
invariant. -/
theorem studentSym_link' (g : Graph) (si ci : Nat) (h : studentSym g) :
    studentSym (addEnrolled (addRegistered g si ci) ci si) := by
  intro sj cj
  rw [mem_enrolled_addEnrolled]
  rw [show (addRegistered g si ci).enrolled = g.enrolled from addRegistered_enrolled _ _ _]
  rw [show (addEnrolled (addRegistered g si ci) ci si).registered =
      (addRegistered g si ci).registered from addEnrolled_registered _ _ _]
  rw [mem_registered_addRegistered]
  rw [h sj cj]
  tauto

/-- Pass 3 steps preserve the enrollment symmetry invariant. -/
theorem studentSym_pass3Step (sKeys iKeys cKeys : List String) (g : Graph) (cd : CourseRec)
    (h : studentSym g) : studentSym (pass3Step sKeys iKeys cKeys g cd) := by
  unfold pass3Step
  cases hd : dictIdx cKeys cd.course_id with
  | none => exact h
  | some ci =>
    apply foldl_preserve _ studentSym
    · intro a x _ ha
      unfold linkEnrollStep
      cases hs : dictIdx sKeys x with
      | none => exact ha
      | some si => exact studentSym_link a ci si ha
    · intro sj cj
      rw [courseInstr_enrolled, courseInstr_registered]
      exact h sj cj

/-- Pass 4 steps preserve the enrollment symmetry invariant. -/
theorem studentSym_pass4Step (sKeys cKeys : List String) (g : Graph) (sd : StudentRec)
    (h : studentSym g) : studentSym (pass4Step sKeys cKeys g sd) := by
  unfold pass4Step
  cases hd : dictIdx sKeys sd.student_id with
  | none => exact h
  | some si =>
    apply foldl_preserve _ studentSym _ _ _ h
    intro a x _ ha
    unfold regStep
    cases hc : dictIdx cKeys x with
    | none => exact ha
    | some ci => exact studentSym_link' a si ci ha

/-- Pass 5 steps preserve the enrollment symmetry invariant (they never touch
enrollment edges). -/
theorem studentSym_pass5Step (iKeys cKeys : List String) (g : Graph) (idata : InstructorRec)
    (h : studentSym g) : studentSym (pass5Step iKeys cKeys g idata) := by
  unfold pass5Step
  cases hd : dictIdx iKeys idata.instructor_id with
  | none => exact h
  | some ii =>
    apply foldl_preserve _ studentSym _ _ _ h
    intro a x _ ha
    unfold asgStep
    cases hc : dictIdx cKeys x with
    | none => exact ha
    | some ci =>
      intro sj cj
      rw [setInstrIfNone_enrolled, addAssigned_enrolled,
        setInstrIfNone_registered, addAssigned_registered]
      exact ha sj cj

/-- The pass-3 instructor link preserves the forward instructor invariant:
it sets course.instructor and immediately ensures the assigned edge. -/
theorem instrLinked_courseInstr (iKeys : List String) (ci : Nat) (g : Graph)
    (inst : Option String) (h : instrLinked g) : instrLinked (courseInstr iKeys ci g inst) := by
  unfold courseInstr
  cases inst with
  | none => exact h
  | some iid =>
    by_cases he : iid = ""
    · simp only [if_pos he]
      exact h
    · simp only [if_neg he]
      cases hd : dictIdx iKeys iid with
      | none => exact h
      | some ii =>
        intro cj jj hinstr
        rw [show (addAssigned (setInstr g ci ii) ii ci).instr = (setInstr g ci ii).instr
            from addAssigned_instr _ _ _] at hinstr
        rw [setInstr_instr] at hinstr
        by_cases hj : cj = ci
        · rw [if_pos hj] at hinstr
          cases hinstr
          subst hj
          rw [mem_assigned_addAssigned]
          exact Or.inr ⟨rfl, rfl⟩
        · rw [if_neg hj] at hinstr
          rw [mem_assigned_addAssigned, setInstr_assigned]
          exact Or.inl (h cj jj hinstr)

/-- One pass-5 assignment step preserves the forward instructor invariant:
course.instructor is only written after the assigned edge is ensured. -/
theorem instrLinked_asgStep (cKeys : List String) (ii : Nat) (g : Graph) (cid : String)
    (h : instrLinked g) : instrLinked (asgStep cKeys ii g cid) := by
  unfold asgStep
  cases hc : dictIdx cKeys cid with
  | none => exact h
  | some ci =>
    intro cj jj hinstr
    rw [setInstrIfNone_instr] at hinstr
    rw [show (setInstrIfNone (addAssigned g ii ci) ci ii).assigned = (addAssigned g ii ci).assigned
        from setInstrIfNone_assigned _ _ _]
    rw [show (addAssigned g ii ci).instr = g.instr from addAssigned_instr _ _ _] at hinstr
    by_cases hcond : cj = ci ∧ g.instr ci = none
    · rw [if_pos hcond] at hinstr
      cases hinstr
      rcases hcond with ⟨rfl, _⟩
      rw [mem_assigned_addAssigned]
      exact Or.inr ⟨rfl, rfl⟩
    · rw [if_neg hcond] at hinstr
      rw [mem_assigned_addAssigned]
      exact Or.inl (h cj jj hinstr)

/-- Pass 3 steps preserve the forward instructor invariant (the roster loop
touches neither instr nor assigned). -/
theorem instrLinked_pass3Step (sKeys iKeys cKeys : List String) (g : Graph) (cd : CourseRec)
    (h : instrLinked g) : instrLinked (pass3Step sKeys iKeys cKeys g cd) := by
  unfold pass3Step
  cases hd : dictIdx cKeys cd.course_id with
  | none => exact h
  | some ci =>
    apply foldl_preserve _ instrLinked
    · intro a x _ ha
      unfold linkEnrollStep
      cases hs : dictIdx sKeys x with
      | none => exact ha
      | some si =>
        intro cj jj hinstr
        rw [show (addRegistered (addEnrolled a ci si) si ci).instr = a.instr from by
            rw [addRegistered_instr, addEnrolled_instr]] at hinstr
        rw [show (addRegistered (addEnrolled a ci si) si ci).assigned = a.assigned from by
            rw [addRegistered_assigned, addEnrolled_assigned]]
        exact ha cj jj hinstr
    · exact instrLinked_courseInstr iKeys ci g cd.instructor h

/-- Pass 4 steps preserve the forward instructor invariant. -/
theorem instrLinked_pass4Step (sKeys cKeys : List String) (g : Graph) (sd : StudentRec)
    (h : instrLinked g) : instrLinked (pass4Step sKeys cKeys g sd) := by
  unfold pass4Step
  cases hd : dictIdx sKeys sd.student_id with
  | none => exact h
  | some si =>
    apply foldl_preserve _ instrLinked _ _ _ h
    intro a x _ ha
    unfold regStep
    cases hc : dictIdx cKeys x with
    | none => exact ha
    | some ci =>
      intro cj jj hinstr
      rw [show (addEnrolled (addRegistered a si ci) ci si).instr = a.instr from by
          rw [addEnrolled_instr, addRegistered_instr]] at hinstr
      rw [show (addEnrolled (addRegistered a si ci) ci si).assigned = a.assigned from by
          rw [addEnrolled_assigned, addRegistered_assigned]]
      exact ha cj jj hinstr

/-- Pass 5 steps preserve the forward instructor invariant. -/
theorem instrLinked_pass5Step (iKeys cKeys : List String) (g : Graph) (idata : InstructorRec)
    (h : instrLinked g) : instrLinked (pass5Step iKeys cKeys g idata) := by
  unfold pass5Step
  cases hd : dictIdx iKeys idata.instructor_id with
  | none => exact h
  | some ii =>
    apply foldl_preserve _ instrLinked _ _ _ h
    intro a x _ ha
    exact instrLinked_asgStep cKeys ii a x ha

/-- Pass 3 steps leave the object collections unchanged. -/
theorem objs_pass3Step (sKeys iKeys cKeys : List String) (g : Graph) (cd : CourseRec) :
    (pass3Step sKeys iKeys cKeys g cd).objs = g.objs := by
  unfold pass3Step
  cases hd : dictIdx cKeys cd.course_id with
  | none => rfl
  | some ci =>
    have hbase := courseInstr_objs iKeys ci g cd.instructor
    refine foldl_preserve _ (fun a : Graph => a.objs = g.objs) _ _ ?_ hbase
    intro a x _ ha
    unfold linkEnrollStep
    cases hs : dictIdx sKeys x with
    | none => exact ha
    | some si => rw [addRegistered_objs, addEnrolled_objs, ha]

/-- Pass 4 steps leave the object collections unchanged. -/
theorem objs_pass4Step (sKeys cKeys : List String) (g : Graph) (sd : StudentRec) :
    (pass4Step sKeys cKeys g sd).objs = g.objs := by
  unfold pass4Step
  cases hd : dictIdx sKeys sd.student_id with
  | none => rfl
  | some si =>
    refine foldl_preserve _ (fun a : Graph => a.objs = g.objs) _ _ ?_ rfl
    intro a x _ ha
    unfold regStep
    cases hc : dictIdx cKeys x with
    | none => exact ha
    | some ci => rw [addEnrolled_objs, addRegistered_objs, ha]

/-- Pass 5 steps leave the object collections unchanged. -/
theorem objs_pass5Step (iKeys cKeys : List String) (g : Graph) (idata : InstructorRec) :
    (pass5Step iKeys cKeys g idata).objs = g.objs := by
  unfold pass5Step
  cases hd : dictIdx iKeys idata.instructor_id with
  | none => rfl
  | some ii =>
    refine foldl_preserve _ (fun a : Graph => a.objs = g.objs) _ _ ?_ rfl
    intro a x _ ha
    unfold asgStep
    cases hc : dictIdx cKeys x with
    | none => exact ha
    | some ci => rw [setInstrIfNone_objs, addAssigned_objs, ha]

/-- The wired graph keeps exactly the constructed object collections. -/
theorem wireGraph_objs (d : Document) (studs : List StudentObj) (insts : List InstructorObj)
    (crs : List CourseObj) : (wireGraph d studs insts crs).objs = (studs, insts, crs) := by
  unfold wireGraph
  refine foldl_preserve _ (fun a : Graph => a.objs = (studs, insts, crs)) _ _ ?_ ?_
  · intro a x _ ha
    rw [objs_pass5Step, ha]
  · refine foldl_preserve _ (fun a : Graph => a.objs = (studs, insts, crs)) _ _ ?_ ?_
    · intro a x _ ha
      rw [objs_pass4Step, ha]
    · refine foldl_preserve _ (fun a : Graph => a.objs = (studs, insts, crs)) _ _ ?_ rfl
      intro a x _ ha
      rw [objs_pass3Step, ha]

/-- The students collection of the wired graph. -/
theorem wireGraph_students (d : Document) (studs : List StudentObj) (insts : List InstructorObj)
    (crs : List CourseObj) : (wireGraph d studs insts crs).students = studs :=
  congrArg Prod.fst (wireGraph_objs d studs insts crs)

/-- The instructors collection of the wired graph. -/
theorem wireGraph_instructors (d : Document) (studs : List StudentObj)
    (insts : List InstructorObj) (crs : List CourseObj) :
    (wireGraph d studs insts crs).instructors = insts :=
  congrArg (fun p => p.2.1) (wireGraph_objs d studs insts crs)

/-- The courses collection of the wired graph. -/
theorem wireGraph_courses (d : Document) (studs : List StudentObj) (insts : List InstructorObj)
    (crs : List CourseObj) : (wireGraph d studs insts crs).courses = crs :=
  congrArg (fun p => p.2.2) (wireGraph_objs d studs insts crs)

/-- Every graph the Reconciler wires satisfies the enrollment symmetry. -/
theorem wireGraph_studentSym (d : Document) (studs : List StudentObj)
    (insts : List InstructorObj) (crs : List CourseObj) :
    studentSym (wireGraph d studs insts crs) := by
  unfold wireGraph
  refine foldl_preserve _ studentSym _ _ ?_ ?_
  · intro a x _ ha
    exact studentSym_pass5Step _ _ a x ha
  · refine foldl_preserve _ studentSym _ _ ?_ ?_
    · intro a x _ ha
      exact studentSym_pass4Step _ _ a x ha
    · refine foldl_preserve _ studentSym _ _ ?_ ?_
      · intro a x _ ha
        exact studentSym_pass3Step _ _ _ a x ha
      · intro sj cj
        simp

/-- Every graph the Reconciler wires satisfies the forward instructor link. -/
theorem wireGraph_instrLinked (d : Document) (studs : List StudentObj)
    (insts : List InstructorObj) (crs : List CourseObj) :
    instrLinked (wireGraph d studs insts crs) := by
  unfold wireGraph
  refine foldl_preserve _ instrLinked _ _ ?_ ?_
  · intro a x _ ha
    exact instrLinked_pass5Step _ _ a x ha
  · refine foldl_preserve _ instrLinked _ _ ?_ ?_
    · intro a x _ ha
      exact instrLinked_pass4Step _ _ a x ha
    · refine foldl_preserve _ instrLinked _ _ ?_ ?_
      · intro a x _ ha
        exact instrLinked_pass3Step _ _ _ a x ha
      · intro cj jj hinstr
        simp at hinstr

/-- A successful left-to-right effectful map whose element action is a checked
projection returns exactly the projected list. -/
theorem exceptMap_ok_map {α β : Type} (f : α → Except String β) (proj : α → β)
    (hf : ∀ x y, f x = .ok y → y = proj x) :
    ∀ {l : List α} {ys : List β}, exceptMap f l = .ok ys → ys = l.map proj := by
  intro l
  induction l with
  | nil =>
    intro ys h
    simp only [exceptMap] at h
    cases h
    rfl
  | cons x xs ih =>
    intro ys h
    simp only [exceptMap] at h
    cases hfx : f x with
    | error e => rw [hfx] at h; cases h
    | ok y =>
      rw [hfx] at h
      cases hrest : exceptMap f xs with
      | error e => rw [hrest] at h; cases h
      | ok ys' =>
        rw [hrest] at h
        cases h
        rw [List.map_cons, hf x y hfx, ih hrest]

/-- A successful Person.__init__ stores exactly the given fields. -/
theorem person_init_ok_eq {n : String} {a : Int} {e : String} {p : Person}
    (h : Person.init n a e = .ok p) : p = ⟨n, a, e⟩ := by
  unfold Person.init at h
  split at h
  · cases h
  · split at h
    · cases h
    · exact (Except.ok.inj h).symm

/-- A successfully constructed Student carries the record's scalars and id. -/
theorem studentFromDict_ok_eq (r : StudentRec) (y : StudentObj)
    (h : studentFromDict r = .ok y) : y = sObjOf r := by
  unfold studentFromDict at h
  cases hp : Person.init r.name r.age r.email with
  | error e => rw [hp] at h; cases h
  | ok p =>
    rw [hp] at h
    cases h
    rw [person_init_ok_eq hp]
    rfl

/-- A successfully constructed Instructor carries the record's scalars and id. -/
theorem instructorFromDict_ok_eq (r : InstructorRec) (y : InstructorObj)
    (h : instructorFromDict r = .ok y) : y = iObjOf r := by
  unfold instructorFromDict at h
  cases hp : Person.init r.name r.age r.email with
  | error e => rw [hp] at h; cases h
  | ok p =>
    rw [hp] at h
    cases h
    rw [person_init_ok_eq hp]
    rfl

/-- A successful load is exactly the wiring of the projected record lists. -/
theorem load_ok {d : Document} {g : Graph} (h : load_obj_from_json d = .ok g) :
    g = wireGraph d (d.sRecs.map sObjOf) (d.iRecs.map iObjOf) (d.cRecs.map courseFromDict) := by
  unfold load_obj_from_json at h
  cases hs : exceptMap studentFromDict d.sRecs with
  | error e => rw [hs] at h; cases h
  | ok studs =>
    rw [hs] at h
    cases hi : exceptMap instructorFromDict d.iRecs with
    | error e => rw [hi] at h; cases h
    | ok insts =>
      rw [hi] at h
      cases h
      rw [exceptMap_ok_map studentFromDict sObjOf studentFromDict_ok_eq hs,
        exceptMap_ok_map instructorFromDict iObjOf instructorFromDict_ok_eq hi]

/-- C1 counterexample: reconciling docConflict succeeds and produces a graph
in which course 0 is in instructor 1's assigned_courses while course 0's
instructor is instructor 0 — the claimed iff fails for the triple. -/
theorem instructor_symmetry_counterexample :
    (load_obj_from_json docConflict).isOk = true ∧
    ¬ ((loadOrEmpty docConflict).instr 0 = some 1 ↔ 0 ∈ (loadOrEmpty docConflict).assigned 1) := by
  constructor
  · decide
  · decide

/-- C1 amended: every graph the Reconciler produces satisfies the student
enrollment symmetry in both directions and the forward instructor direction
(course.instructor == I implies course is in I.assigned_courses); the
converse instructor direction can fail when an instructor record claims a
course whose record names a different instructor. -/
theorem reconciler_partial_symmetry (d : Document) (g : Graph)
    (h : load_obj_from_json d = .ok g) : studentSym g ∧ instrLinked g := by
  rw [load_ok h]
  exact ⟨wireGraph_studentSym _ _ _ _, wireGraph_instrLinked _ _ _ _⟩

/-- C1 amended witness: at docSmall the loaded graph links course 0 into
instructor 0's assigned_courses because its instructor field is set. -/
theorem reconciler_partial_symmetry_witness :
    0 ∈ (loadOrEmpty docSmall).assigned 0 :=
  (reconciler_partial_symmetry docSmall (loadOrEmpty docSmall) rfl).2 0 0 (by decide)

/-- C10: reconciling a document with absent top-level keys is the same as
reconciling it with those keys bound to empty lists, and a missing category
loads as an empty collection while the present categories still load. -/
theorem missing_keys_defaulted (d : Document) :
    load_obj_from_json d =
      load_obj_from_json ⟨some d.sRecs, some d.iRecs, some d.cRecs⟩ ∧
    (d.students = none → ∀ g, load_obj_from_json d = .ok g → g.students = []) ∧
    (d.instructors = none → ∀ g, load_obj_from_json d = .ok g → g.instructors = []) ∧
    (d.courses = none → ∀ g, load_obj_from_json d = .ok g → g.courses = []) := by
  refine ⟨rfl, ?_, ?_, ?_⟩
  · intro hnone g hok
    rw [load_ok hok, wireGraph_students]
    simp [Document.sRecs, hnone]
  · intro hnone g hok
    rw [load_ok hok, wireGraph_instructors]
    simp [Document.iRecs, hnone]
  · intro hnone g hok
    rw [load_ok hok, wireGraph_courses]
    simp [Document.cRecs, hnone]

/-- C10 witness: a document with all three keys absent loads as the document
with three empty lists does, and its student collection is empty. -/
theorem missing_keys_defaulted_witness :
    load_obj_from_json ⟨none, none, none⟩ =
      load_obj_from_json ⟨some [], some [], some []⟩ ∧
    (loadOrEmpty ⟨none, none, none⟩).students = [] := by
  constructor
  · exact (missing_keys_defaulted ⟨none, none, none⟩).1
  · exact (missing_keys_defaulted ⟨none, none, none⟩).2.1 rfl
      (loadOrEmpty ⟨none, none, none⟩) rfl

/-- A pass-4 inner step with an unresolvable course id does nothing. -/
theorem regStep_dangling (cKeys : List String) (si : Nat) (g : Graph) (cid : String)
    (h : dictIdx cKeys cid = none) : regStep cKeys si g cid = g := by
  unfold regStep
  rw [h]

/-- A pass-3 roster step with an unresolvable student id does nothing. -/
theorem linkEnrollStep_dangling (sKeys : List String) (ci : Nat) (g : Graph) (sid : String)
    (h : dictIdx sKeys sid = none) : linkEnrollStep sKeys ci g sid = g := by
  unfold linkEnrollStep
  rw [h]

/-- A pass-5 inner step with an unresolvable course id does nothing. -/
theorem asgStep_dangling (cKeys : List String) (ii : Nat) (g : Graph) (cid : String)
    (h : dictIdx cKeys cid = none) : asgStep cKeys ii g cid = g := by
  unfold asgStep
  rw [h]

/-- The pass-3 instructor link with an unresolvable instructor id does
nothing, exactly like a null instructor field. -/
theorem courseInstr_dangling (iKeys : List String) (ci : Nat) (g : Graph) (iid : String)
    (h : dictIdx iKeys iid = none) : courseInstr iKeys ci g (some iid) = g := by
  unfold courseInstr
  by_cases he : iid = ""
  · simp [he]
  · simp only [if_neg he]
    rw [h]

/-- Dropping a fold element whose step is the identity leaves the fold
unchanged. -/
theorem foldl_middle_skip {α β : Type} (step : α → β → α) (l1 l2 : List β) (x : β)
    (h : ∀ a, step a x = a) (g : α) :
    List.foldl step g (l1 ++ x :: l2) = List.foldl step g (l1 ++ l2) := by
  rw [List.foldl_append, List.foldl_append, List.foldl_cons, h]

/-- The effectful map is unchanged when one element is replaced by another
with the same action. -/
theorem exceptMap_congr {α β : Type} (f : α → Except String β) (l1 l2 : List α) (x y : α)
    (h : f x = f y) : exceptMap f (l1 ++ x :: l2) = exceptMap f (l1 ++ y :: l2) := by
  induction l1 with
  | nil =>
    simp only [List.nil_append, exceptMap]
    rw [h]
  | cons a as ih =>
    simp only [List.cons_append, exceptMap, List.append_eq, ih]

/-- Course ids survive object construction. -/
theorem courseKeys_map (cRecs : List CourseRec) :
    (cRecs.map courseFromDict).map (fun c => c.course_id) =
      cRecs.map (fun c => c.course_id) := by
  induction cRecs with
  | nil => rfl
  | cons x xs ih => simp [ih, courseFromDict]

/-- Two reconciliations agree whenever object construction agrees on both
person categories and the wiring agrees on every successful construction. -/
theorem load_eq_of_parts {d₁ d₂ : Document}
    (hS : exceptMap studentFromDict d₁.sRecs = exceptMap studentFromDict d₂.sRecs)
    (hI : exceptMap instructorFromDict d₁.iRecs = exceptMap instructorFromDict d₂.iRecs)
    (hW : ∀ studs insts, exceptMap studentFromDict d₂.sRecs = .ok studs →
      exceptMap instructorFromDict d₂.iRecs = .ok insts →
      wireGraph d₁ studs insts (d₁.cRecs.map courseFromDict) =
        wireGraph d₂ studs insts (d₂.cRecs.map courseFromDict)) :
    load_obj_from_json d₁ = load_obj_from_json d₂ := by
  unfold load_obj_from_json
  rw [hS]
  cases h1 : exceptMap studentFromDict d₂.sRecs with
  | error e => rfl
  | ok studs =>
    simp only [h1]
    rw [hI]
    cases h2 : exceptMap instructorFromDict d₂.iRecs with
    | error e => rfl
    | ok insts =>
      simp only [h2]
      exact congrArg Except.ok (hW studs insts h1 h2)

/-- Replacing one student record by another that resolves identically and
drives pass 4 identically leaves the wiring unchanged. -/
theorem wireGraph_student_surgery (sPre sPost : List StudentRec) (A B : StudentRec)
    (iL : Option (List InstructorRec)) (cL : Option (List CourseRec))
    (studs : List StudentObj) (insts : List InstructorObj) (crs : List CourseObj)
    (hskip : ∀ gm, pass4Step (studs.map (fun s => s.student_id))
        (crs.map (fun c => c.course_id)) gm A =
      pass4Step (studs.map (fun s => s.student_id)) (crs.map (fun c => c.course_id)) gm B) :
    wireGraph ⟨some (sPre ++ A :: sPost), iL, cL⟩ studs insts crs =
      wireGraph ⟨some (sPre ++ B :: sPost), iL, cL⟩ studs insts crs := by
  simp only [wireGraph, Document.sRecs, Document.iRecs, Document.cRecs, Option.getD_some]
  apply congrArg (fun x => List.foldl (pass5Step (insts.map (fun i => i.instructor_id))
    (crs.map (fun c => c.course_id))) x (iL.getD []))
  rw [List.foldl_append, List.foldl_append, List.foldl_cons, List.foldl_cons, hskip]

/-- Replacing one course record by another that constructs the same object,
resolves identically and drives pass 3 identically leaves the wiring
unchanged. -/
theorem wireGraph_course_surgery (cPre cPost : List CourseRec) (A B : CourseRec)
    (sL : Option (List StudentRec)) (iL : Option (List InstructorRec))
    (studs : List StudentObj) (insts : List InstructorObj) (crs : List CourseObj)
    (hskip : ∀ gm, pass3Step (studs.map (fun s => s.student_id))
        (insts.map (fun i => i.instructor_id)) (crs.map (fun c => c.course_id)) gm A =
      pass3Step (studs.map (fun s => s.student_id)) (insts.map (fun i => i.instructor_id))
        (crs.map (fun c => c.course_id)) gm B) :
    wireGraph ⟨sL, iL, some (cPre ++ A :: cPost)⟩ studs insts crs =
      wireGraph ⟨sL, iL, some (cPre ++ B :: cPost)⟩ studs insts crs := by
  simp only [wireGraph, Document.sRecs, Document.iRecs, Document.cRecs, Option.getD_some]
  apply congrArg (fun x => List.foldl (pass5Step (insts.map (fun i => i.instructor_id))
    (crs.map (fun c => c.course_id))) x (iL.getD []))
  apply congrArg (fun x => List.foldl (pass4Step (studs.map (fun s => s.student_id))
    (crs.map (fun c => c.course_id))) x (sL.getD []))
  rw [List.foldl_append, List.foldl_append, List.foldl_cons, List.foldl_cons, hskip]

/-- Replacing one instructor record by another that resolves identically and
drives pass 5 identically leaves the wiring unchanged. -/
theorem wireGraph_instructor_surgery (iPre iPost : List InstructorRec) (A B : InstructorRec)
    (sL : Option (List StudentRec)) (cL : Option (List CourseRec))
    (studs : List StudentObj) (insts : List InstructorObj) (crs : List CourseObj)
    (hskip : ∀ gm, pass5Step (insts.map (fun i => i.instructor_id))
        (crs.map (fun c => c.course_id)) gm A =
      pass5Step (insts.map (fun i => i.instructor_id)) (crs.map (fun c => c.course_id)) gm B) :
    wireGraph ⟨sL, some (iPre ++ A :: iPost), cL⟩ studs insts crs =
      wireGraph ⟨sL, some (iPre ++ B :: iPost), cL⟩ studs insts crs := by
  simp only [wireGraph, Document.sRecs, Document.iRecs, Document.cRecs, Option.getD_some]
  rw [List.foldl_append, List.foldl_append, List.foldl_cons, List.foldl_cons, hskip]

/-- Student ids survive object construction. -/
theorem studentKeys_map (sRecs : List StudentRec) :
    (sRecs.map sObjOf).map (fun s => s.student_id) =
      sRecs.map (fun r => r.student_id) := by
  induction sRecs with
  | nil => rfl
  | cons x xs ih => simp [ih, sObjOf]

/-- Instructor ids survive object construction. -/
theorem instructorKeys_map (iRecs : List InstructorRec) :
    (iRecs.map iObjOf).map (fun i => i.instructor_id) =
      iRecs.map (fun r => r.instructor_id) := by
  induction iRecs with
  | nil => rfl
  | cons x xs ih => simp [ih, iObjOf]

/-- Two student records with the same id and the same pass-4 inner run drive
pass 4 identically. -/
theorem pass4Step_congr (sKeys cKeys : List String) (A B : StudentRec)
    (hid : A.student_id = B.student_id)
    (hfold : ∀ si gm, List.foldl (regStep cKeys si) gm A.registered_courses =
      List.foldl (regStep cKeys si) gm B.registered_courses) :
    ∀ gm, pass4Step sKeys cKeys gm A = pass4Step sKeys cKeys gm B := by
  intro gm
  unfold pass4Step
  rw [hid]
  cases hd : dictIdx sKeys B.student_id with
  | none => rfl
  | some si => exact hfold si gm

/-- Two course records with the same id, same-acting instructor link and the
same roster run drive pass 3 identically. -/
theorem pass3Step_congr (sKeys iKeys cKeys : List String) (A B : CourseRec)
    (hid : A.course_id = B.course_id)
    (hinner : ∀ ci gm,
      List.foldl (linkEnrollStep sKeys ci) (courseInstr iKeys ci gm A.instructor)
        A.enrolled_students =
      List.foldl (linkEnrollStep sKeys ci) (courseInstr iKeys ci gm B.instructor)
        B.enrolled_students) :
    ∀ gm, pass3Step sKeys iKeys cKeys gm A = pass3Step sKeys iKeys cKeys gm B := by
  intro gm
  unfold pass3Step
  rw [hid]
  cases hd : dictIdx cKeys B.course_id with
  | none => rfl
  | some ci => exact hinner ci gm

/-- Two instructor records with the same id and the same pass-5 inner run
drive pass 5 identically. -/
theorem pass5Step_congr (iKeys cKeys : List String) (A B : InstructorRec)
    (hid : A.instructor_id = B.instructor_id)
    (hfold : ∀ ii gm, List.foldl (asgStep cKeys ii) gm A.assigned_courses =
      List.foldl (asgStep cKeys ii) gm B.assigned_courses) :
    ∀ gm, pass5Step iKeys cKeys gm A = pass5Step iKeys cKeys gm B := by
  intro gm
  unfold pass5Step
  rw [hid]
  cases hd : dictIdx iKeys B.instructor_id with
  | none => rfl
  | some ii => exact hfold ii gm

/-- C4: a dangling ID reference — one that does not resolve to an entity
present in the document — never raises: removing it from the document yields
the very same reconciled result (the edge is simply omitted and everything
resolvable is still reconstructed).  The four conjuncts cover a dangling
course id in a student's registered_courses, a dangling student id in a
course's enrolled_students, a dangling instructor id in a course's
instructor field, and a dangling course id in an instructor's
assigned_courses. -/
theorem dangling_reference_skipped :
    (∀ (sPre sPost : List StudentRec) (r : StudentRec) (l1 l2 : List String) (cid : String)
      (iL : Option (List InstructorRec)) (cL : Option (List CourseRec)),
      cid ∉ (cL.getD []).map (fun c => c.course_id) →
      load_obj_from_json
          ⟨some (sPre ++ { r with registered_courses := l1 ++ cid :: l2 } :: sPost), iL, cL⟩ =
        load_obj_from_json
          ⟨some (sPre ++ { r with registered_courses := l1 ++ l2 } :: sPost), iL, cL⟩) ∧
    (∀ (cPre cPost : List CourseRec) (r : CourseRec) (m1 m2 : List String) (sid : String)
      (sL : Option (List StudentRec)) (iL : Option (List InstructorRec)),
      sid ∉ (sL.getD []).map (fun s => s.student_id) →
      load_obj_from_json
          ⟨sL, iL, some (cPre ++ { r with enrolled_students := m1 ++ sid :: m2 } :: cPost)⟩ =
        load_obj_from_json
          ⟨sL, iL, some (cPre ++ { r with enrolled_students := m1 ++ m2 } :: cPost)⟩) ∧
    (∀ (cPre cPost : List CourseRec) (r : CourseRec) (iid : String)
      (sL : Option (List StudentRec)) (iL : Option (List InstructorRec)),
      iid ∉ (iL.getD []).map (fun i => i.instructor_id) →
      load_obj_from_json
          ⟨sL, iL, some (cPre ++ { r with instructor := some iid } :: cPost)⟩ =
        load_obj_from_json
          ⟨sL, iL, some (cPre ++ { r with instructor := none } :: cPost)⟩) ∧
    (∀ (iPre iPost : List InstructorRec) (r : InstructorRec) (m1 m2 : List String) (cid : String)
      (sL : Option (List StudentRec)) (cL : Option (List CourseRec)),
      cid ∉ (cL.getD []).map (fun c => c.course_id) →
      load_obj_from_json
          ⟨sL, some (iPre ++ { r with assigned_courses := m1 ++ cid :: m2 } :: iPost), cL⟩ =
        load_obj_from_json
          ⟨sL, some (iPre ++ { r with assigned_courses := m1 ++ m2 } :: iPost), cL⟩) := by
  refine ⟨?_, ?_, ?_, ?_⟩
  · intro sPre sPost r l1 l2 cid iL cL hnm
    apply load_eq_of_parts
    · exact exceptMap_congr studentFromDict sPre sPost _ _ rfl
    · rfl
    · intro studs insts _ _
      apply wireGraph_student_surgery
      apply pass4Step_congr
      · rfl
      · intro si gm
        have hnone : dictIdx (((cL.getD []).map courseFromDict).map (fun c => c.course_id))
            cid = none := by
          rw [courseKeys_map]
          exact dictIdx_of_not_mem hnm
        exact foldl_middle_skip _ l1 l2 cid (fun a => regStep_dangling _ si a cid hnone) gm
  · intro cPre cPost r m1 m2 sid sL iL hnm
    apply load_eq_of_parts
    · rfl
    · rfl
    · intro studs insts hok _
      have hcrs : (Document.cRecs ⟨sL, iL,
            some (cPre ++ { r with enrolled_students := m1 ++ sid :: m2 } :: cPost)⟩).map
            courseFromDict =
          (Document.cRecs ⟨sL, iL,
            some (cPre ++ { r with enrolled_students := m1 ++ m2 } :: cPost)⟩).map
            courseFromDict := by
        simp only [Document.cRecs, Option.getD_some, List.map_append, List.map_cons]
        rfl
      rw [hcrs]
      apply wireGraph_course_surgery
      apply pass3Step_congr
      · rfl
      · intro ci gm
        have hstuds : studs = (Document.sRecs ⟨sL, iL,
            some (cPre ++ { r with enrolled_students := m1 ++ m2 } :: cPost)⟩).map sObjOf :=
          exceptMap_ok_map studentFromDict sObjOf studentFromDict_ok_eq hok
        have hnone : dictIdx (studs.map (fun s => s.student_id)) sid = none := by
          rw [hstuds, studentKeys_map]
          exact dictIdx_of_not_mem hnm
        dsimp only
        exact foldl_middle_skip _ m1 m2 sid
          (fun a => linkEnrollStep_dangling _ ci a sid hnone) _
  · intro cPre cPost r iid sL iL hnm
    apply load_eq_of_parts
    · rfl
    · rfl
    · intro studs insts _ hok
      have hcrs : (Document.cRecs ⟨sL, iL,
            some (cPre ++ { r with instructor := some iid } :: cPost)⟩).map courseFromDict =
          (Document.cRecs ⟨sL, iL,
            some (cPre ++ { r with instructor := none } :: cPost)⟩).map courseFromDict := by
        simp only [Document.cRecs, Option.getD_some, List.map_append, List.map_cons]
        rfl
      rw [hcrs]
      apply wireGraph_course_surgery
      apply pass3Step_congr
      · rfl
      · intro ci gm
        have hinsts : insts = (Document.iRecs ⟨sL, iL,
            some (cPre ++ { r with instructor := none } :: cPost)⟩).map iObjOf :=
          exceptMap_ok_map instructorFromDict iObjOf instructorFromDict_ok_eq hok
        have hnone : dictIdx (insts.map (fun i => i.instructor_id)) iid = none := by
          rw [hinsts, instructorKeys_map]
          exact dictIdx_of_not_mem hnm
        dsimp only
        rw [courseInstr_dangling _ ci gm iid hnone]
        rfl
  · intro iPre iPost r m1 m2 cid sL cL hnm
    apply load_eq_of_parts
    · rfl
    · exact exceptMap_congr instructorFromDict iPre iPost _ _ rfl
    · intro studs insts _ _
      apply wireGraph_instructor_surgery
      apply pass5Step_congr
      · rfl
      · intro ii gm
        have hnone : dictIdx (((cL.getD []).map courseFromDict).map (fun c => c.course_id))
            cid = none := by
          rw [courseKeys_map]
          exact dictIdx_of_not_mem hnm
        exact foldl_middle_skip _ m1 m2 cid (fun a => asgStep_dangling _ ii a cid hnone) gm

/-- C4 witness: adding a reference to the absent course id "ZZ" to the
student record of docSmall does not change the reconciled result. -/
theorem dangling_reference_skipped_witness :
    load_obj_from_json
        ⟨some [⟨"Alice", 20, "a@b.c", "S1", ["C1", "ZZ"]⟩],
         some [⟨"DrX", 50, "x@y.z", "I1", ["C1"]⟩],
         some [⟨"C1", "Algorithms", some "I1", ["S1"]⟩]⟩ =
      load_obj_from_json
        ⟨some [⟨"Alice", 20, "a@b.c", "S1", ["C1"]⟩],
         some [⟨"DrX", 50, "x@y.z", "I1", ["C1"]⟩],
         some [⟨"C1", "Algorithms", some "I1", ["S1"]⟩]⟩ :=
  (dangling_reference_skipped).1 [] [] ⟨"Alice", 20, "a@b.c", "S1", []⟩ ["C1"] [] "ZZ"
    (some [⟨"DrX", 50, "x@y.z", "I1", ["C1"]⟩])
    (some [⟨"C1", "Algorithms", some "I1", ["S1"]⟩]) (by decide)

/-- Pass-5 inner steps only ever add assigned edges. -/
theorem assigned_mono_asgStep (cKeys : List String) (ii : Nat) (b : Graph) (y : String)
    (ij cj : Nat) (h : cj ∈ b.assigned ij) : cj ∈ (asgStep cKeys ii b y).assigned ij := by
  unfold asgStep
  cases hd : dictIdx cKeys y with
  | none => exact h
  | some ci =>
    rw [show (setInstrIfNone (addAssigned b ii ci) ci ii).assigned = (addAssigned b ii ci).assigned
        from setInstrIfNone_assigned _ _ _]
    rw [mem_assigned_addAssigned]
    exact Or.inl h

/-- Pass-5 steps only ever add assigned edges. -/
theorem assigned_mono_pass5Step (iKeys cKeys : List String) (b : Graph) (ir : InstructorRec)
    (ij cj : Nat) (h : cj ∈ b.assigned ij) : cj ∈ (pass5Step iKeys cKeys b ir).assigned ij := by
  unfold pass5Step
  cases hd : dictIdx iKeys ir.instructor_id with
  | none => exact h
  | some ii =>
    refine foldl_preserve _ (fun a : Graph => cj ∈ a.assigned ij) _ _ ?_ h
    intro a x _ ha
    exact assigned_mono_asgStep cKeys ii a x ij cj ha

/-- An instructor record whose map entry is ii links every resolvable
assigned_courses id into slot ii of the assigned map. -/
theorem mem_assigned_pass5Step_self (iKeys cKeys : List String) (a : Graph)
    (ir : InstructorRec) (ii ci : Nat) (cid : String)
    (hres : dictIdx iKeys ir.instructor_id = some ii)
    (hcid : cid ∈ ir.assigned_courses) (hc : dictIdx cKeys cid = some ci) :
    ci ∈ (pass5Step iKeys cKeys a ir).assigned ii := by
  unfold pass5Step
  rw [hres]
  obtain ⟨m₁, m₂, hm⟩ := List.append_of_mem hcid
  rw [hm]
  refine foldl_establish (asgStep cKeys ii) (fun _ => True)
    (fun b : Graph => ci ∈ b.assigned ii) m₁ cid m₂ a (fun _ _ _ _ => trivial) ?_ ?_ trivial
  · intro b _
    unfold asgStep
    rw [hc]
    rw [show (setInstrIfNone (addAssigned b ii ci) ci ii).assigned =
        (addAssigned b ii ci).assigned from setInstrIfNone_assigned _ _ _]
    rw [mem_assigned_addAssigned]
    exact Or.inr ⟨rfl, rfl⟩
  · intro b y _ hb
    exact assigned_mono_asgStep cKeys ii b y ii ci hb

/-- Pass 4 leaves course.instructor entirely unchanged. -/
theorem instr_pass4Step (sKeys cKeys : List String) (a : Graph) (sd : StudentRec) :
    (pass4Step sKeys cKeys a sd).instr = a.instr := by
  unfold pass4Step
  cases hd : dictIdx sKeys sd.student_id with
  | none => rfl
  | some si =>
    refine foldl_preserve _ (fun b : Graph => b.instr = a.instr) _ _ ?_ rfl
    intro b x _ hb
    unfold regStep
    cases hc : dictIdx cKeys x with
    | none => exact hb
    | some ci => rw [addEnrolled_instr, addRegistered_instr, hb]

/-- Pass-5 steps never overwrite an already-set course.instructor. -/
theorem instr_some_pass5Step (iKeys cKeys : List String) (a : Graph) (ir : InstructorRec)
    (ci ii : Nat) (h : a.instr ci = some ii) :
    (pass5Step iKeys cKeys a ir).instr ci = some ii := by
  unfold pass5Step
  cases hd : dictIdx iKeys ir.instructor_id with
  | none => exact h
  | some ij =>
    refine foldl_preserve _ (fun b : Graph => b.instr ci = some ii) _ _ ?_ h
    intro b x _ hb
    unfold asgStep
    cases hc : dictIdx cKeys x with
    | none => exact hb
    | some cj =>
      rw [setInstrIfNone_instr]
      rw [show (addAssigned b ij cj).instr = b.instr from addAssigned_instr _ _ _]
      by_cases hcond : ci = cj ∧ b.instr cj = none
      · rcases hcond with ⟨rfl, hnone⟩
        rw [hb] at hnone
        cases hnone
      · rw [if_neg hcond]
        exact hb

/-- The pass-3 instructor link only writes the instructor slot of its own
course. -/
theorem instr_courseInstr_ne (iKeys : List String) (cj : Nat) (a : Graph)
    (inst : Option String) (ci : Nat) (hne : cj ≠ ci) :
    (courseInstr iKeys cj a inst).instr ci = a.instr ci := by
  unfold courseInstr
  cases inst with
  | none => rfl
  | some iid =>
    by_cases he : iid = ""
    · simp [he]
    · simp only [if_neg he]
      cases hd : dictIdx iKeys iid with
      | none => rfl
      | some ii =>
        rw [show (addAssigned (setInstr a cj ii) ii cj).instr = (setInstr a cj ii).instr
            from addAssigned_instr _ _ _]
        rw [setInstr_instr]
        rw [if_neg (fun hc => hne hc.symm)]

/-- A pass-3 step for a record resolving away from ci leaves instr ci alone. -/
theorem instr_pass3Step_ne (sKeys iKeys cKeys : List String) (a : Graph) (x : CourseRec)
    (ci : Nat) (h : ∀ cj, dictIdx cKeys x.course_id = some cj → cj ≠ ci) :
    (pass3Step sKeys iKeys cKeys a x).instr ci = a.instr ci := by
  unfold pass3Step
  cases hd : dictIdx cKeys x.course_id with
  | none => rfl
  | some cj =>
    have hne := h cj hd
    have hbase := instr_courseInstr_ne iKeys cj a x.instructor ci hne
    refine foldl_preserve _
      (fun b : Graph => b.instr ci = a.instr ci) _ _ ?_ hbase
    intro b y _ hb
    unfold linkEnrollStep
    cases hs : dictIdx sKeys y with
    | none => exact hb
    | some si => rw [addRegistered_instr, addEnrolled_instr, hb]

/-- A pass-3 step whose record resolves to ci and names a resolvable,
non-empty instructor sets instr ci to that instructor. -/
theorem instr_pass3Step_self (sKeys iKeys cKeys : List String) (a : Graph) (cd : CourseRec)
    (ci ii : Nat) (iid : String) (hres : dictIdx cKeys cd.course_id = some ci)
    (hinst : cd.instructor = some iid) (hne : iid ≠ "")
    (hii : dictIdx iKeys iid = some ii) :
    (pass3Step sKeys iKeys cKeys a cd).instr ci = some ii := by
  unfold pass3Step
  rw [hres]
  have hbase : (courseInstr iKeys ci a cd.instructor).instr ci = some ii := by
    rw [hinst]
    unfold courseInstr
    simp only [if_neg hne]
    rw [hii]
    rw [show (addAssigned (setInstr a ci ii) ii ci).instr = (setInstr a ci ii).instr
        from addAssigned_instr _ _ _]
    rw [setInstr_instr, if_pos rfl]
  refine foldl_preserve _ (fun b : Graph => b.instr ci = some ii) _ _ ?_ hbase
  intro b y _ hb
  unfold linkEnrollStep
  cases hs : dictIdx sKeys y with
  | none => exact hb
  | some si => rw [addRegistered_instr, addEnrolled_instr, hb]

/-- Helper for the instructor-side cross-check: every assigned_courses id of
an instructor record that resolves ends up in that instructor's assigned map. -/
theorem wire_assigned_of_instructor_record (d : Document) (S : List StudentObj)
    (I : List InstructorObj) (C : List CourseObj)
    (hik : I.map (fun i => i.instructor_id) = d.iKeys)
    (hck : C.map (fun c => c.course_id) = d.cKeys)
    (ir : InstructorRec) (hir : ir ∈ d.iRecs) (ii : Nat)
    (hii : dictIdx d.iKeys ir.instructor_id = some ii)
    (cid : String) (hcid : cid ∈ ir.assigned_courses) (ci : Nat)
    (hci : dictIdx d.cKeys cid = some ci) :
    ci ∈ (wireGraph d S I C).assigned ii := by
  simp only [wireGraph]
  rw [hik, hck]
  obtain ⟨l₁, l₂, hsplit⟩ := List.append_of_mem hir
  rw [hsplit]
  refine foldl_establish (pass5Step d.iKeys d.cKeys) (fun _ => True)
    (fun b : Graph => ci ∈ b.assigned ii) l₁ ir l₂ _ (fun _ _ _ _ => trivial) ?_ ?_ trivial
  · intro b _
    exact mem_assigned_pass5Step_self d.iKeys d.cKeys b ir ii ci cid hii hcid hci
  · intro b y _ hb
    exact assigned_mono_pass5Step _ _ b y ii ci hb

/-- Helper for the course-side tie-break: when course ids are duplicate-free,
the instructor named by a course's own record ends up as course.instructor,
whatever happened elsewhere. -/
theorem wire_instr_of_course_record (d : Document) (S : List StudentObj)
    (I : List InstructorObj) (C : List CourseObj)
    (hsk : S.map (fun s => s.student_id) = d.sKeys)
    (hik : I.map (fun i => i.instructor_id) = d.iKeys)
    (hck : C.map (fun c => c.course_id) = d.cKeys)
    (hnd : d.cKeys.Nodup) (cd : CourseRec) (hcd : cd ∈ d.cRecs) (iid : String)
    (hinst : cd.instructor = some iid) (hne : iid ≠ "") (ii : Nat)
    (hii : dictIdx d.iKeys iid = some ii) (ci : Nat)
    (hci : dictIdx d.cKeys cd.course_id = some ci) :
    (wireGraph d S I C).instr ci = some ii := by
  simp only [wireGraph]
  rw [hsk, hik, hck]
  refine foldl_preserve (pass5Step d.iKeys d.cKeys)
    (fun b : Graph => b.instr ci = some ii) d.iRecs _ ?_ ?_
  · intro b x _ hb
    exact instr_some_pass5Step _ _ b x ci ii hb
  · refine foldl_preserve (pass4Step d.sKeys d.cKeys)
      (fun b : Graph => b.instr ci = some ii) d.sRecs _ ?_ ?_
    · intro b x _ hb
      rw [instr_pass4Step]
      exact hb
    · obtain ⟨l₁, l₂, hsplit⟩ := List.append_of_mem hcd
      have hndr : d.cRecs.Nodup := List.Nodup.of_map _ hnd
      have hcdl₂ : cd ∉ l₂ := by
        have hsub : List.Sublist (cd :: l₂) d.cRecs := by
          rw [hsplit]
          exact List.sublist_append_right _ _
        exact (List.nodup_cons.mp (hndr.sublist hsub)).1
      rw [hsplit]
      refine foldl_establish (pass3Step d.sKeys d.iKeys d.cKeys) (fun _ => True)
        (fun b : Graph => b.instr ci = some ii) l₁ cd l₂ _
        (fun _ _ _ _ => trivial) ?_ ?_ trivial
      · intro b _
        exact instr_pass3Step_self _ _ _ b cd ci ii iid hci hinst hne hii
      · intro b x hx hb
        have hxc : x ∈ d.cRecs := by
          rw [hsplit]
          exact List.mem_append_right _ (List.mem_cons_of_mem _ hx)
        have hxne : x ≠ cd := fun h => hcdl₂ (h ▸ hx)
        have hidne : x.course_id ≠ cd.course_id := by
          intro he
          refine hxne (List.inj_on_of_nodup_map hnd hxc ?_ he)
          rw [hsplit]
          exact List.mem_append_right _ (List.mem_cons_self _ _)
        rw [instr_pass3Step_ne _ _ _ b x ci ?_]
        · exact hb
        · intro cj hcj heq
          obtain ⟨_, hgx⟩ := dictIdx_some hcj
          obtain ⟨_, hgcd⟩ := dictIdx_some hci
          rw [heq, hgcd] at hgx
          exact hidne (Option.some.inj hgx).symm

/-- The wiring keys of a loaded document are the document's id lists. -/
theorem load_keys (d : Document) :
    (d.sRecs.map sObjOf).map (fun s => s.student_id) = d.sKeys ∧
    (d.iRecs.map iObjOf).map (fun i => i.instructor_id) = d.iKeys ∧
    (d.cRecs.map courseFromDict).map (fun c => c.course_id) = d.cKeys := by
  refine ⟨?_, ?_, ?_⟩
  · rw [studentKeys_map]
    rfl
  · rw [instructorKeys_map]
    rfl
  · rw [courseKeys_map]
    rfl

/-- C3: in the instructor-side cross-check, every assigned_courses id that
resolves is linked into the instructor's assigned map (both directions are
handled, course.instructor only when currently null), and — when each course
has a single record, as the unique course_id key guarantees — the instructor
named by a course's own record wins every conflict: after reconciliation
course.instructor is the course-record instructor whenever that record names
a resolvable, non-empty instructor id. -/
theorem course_side_priority (d : Document) (g : Graph)
    (hok : load_obj_from_json d = .ok g) :
    (∀ ir ∈ d.iRecs, ∀ ii, dictIdx d.iKeys ir.instructor_id = some ii →
      ∀ cid ∈ ir.assigned_courses, ∀ ci, dictIdx d.cKeys cid = some ci →
      ci ∈ g.assigned ii) ∧
    (d.cKeys.Nodup → ∀ cd ∈ d.cRecs, ∀ iid, cd.instructor = some iid → iid ≠ "" →
      ∀ ii, dictIdx d.iKeys iid = some ii →
      ∀ ci, dictIdx d.cKeys cd.course_id = some ci → g.instr ci = some ii) := by
  have hg := load_ok hok
  subst hg
  obtain ⟨hsk, hik, hck⟩ := load_keys d
  constructor
  · intro ir hir ii hii cid hcid ci hci
    exact wire_assigned_of_instructor_record d _ _ _ hik hck ir hir ii hii cid hcid ci hci
  · intro hnd cd hcd iid hinst hne ii hii ci hci
    exact wire_instr_of_course_record d _ _ _ hsk hik hck hnd cd hcd iid hinst hne ii hii ci hci

/-- C3 witness: in docConflict the course record names I1 while I2 also
claims the course; after reconciliation the course's instructor is I1
(index 0) and the course is in I2's assigned list (index 1). -/
theorem course_side_priority_witness :
    (loadOrEmpty docConflict).instr 0 = some 0 ∧
    0 ∈ (loadOrEmpty docConflict).assigned 1 := by
  have h := course_side_priority docConflict (loadOrEmpty docConflict) rfl
  constructor
  · exact h.2 (by decide) ⟨"C", "CN", some "I1", []⟩ (by decide) "I1" rfl (by decide)
      0 (by decide) 0 (by decide)
  · exact h.1 ⟨"N", 0, "a@b.c", "I2", ["C"]⟩ (by decide) 1 (by decide) "C" (by decide)
      0 (by decide)

/-- Pass-4 inner steps only ever add registered/enrolled edges. -/
theorem pair_mono_regStep (cKeys : List String) (si : Nat) (b : Graph) (y : String)
    (sj cj : Nat) :
    (cj ∈ b.registered sj → cj ∈ (regStep cKeys si b y).registered sj) ∧
    (sj ∈ b.enrolled cj → sj ∈ (regStep cKeys si b y).enrolled cj) := by
  unfold regStep
  cases hd : dictIdx cKeys y with
  | none => exact ⟨id, id⟩
  | some ci =>
    constructor
    · intro h
      rw [show (addEnrolled (addRegistered b si ci) ci si).registered =
          (addRegistered b si ci).registered from addEnrolled_registered _ _ _]
      rw [mem_registered_addRegistered]
      exact Or.inl h
    · intro h
      rw [mem_enrolled_addEnrolled]
      rw [show (addRegistered b si ci).enrolled = b.enrolled from addRegistered_enrolled _ _ _]
      exact Or.inl h

/-- Pass-4 steps only ever add registered/enrolled edges. -/
theorem pair_mono_pass4Step (sKeys cKeys : List String) (b : Graph) (sd : StudentRec)
    (sj cj : Nat) :
    (cj ∈ b.registered sj → cj ∈ (pass4Step sKeys cKeys b sd).registered sj) ∧
    (sj ∈ b.enrolled cj → sj ∈ (pass4Step sKeys cKeys b sd).enrolled cj) := by
  unfold pass4Step
  cases hd : dictIdx sKeys sd.student_id with
  | none => exact ⟨id, id⟩
  | some si =>
    have := foldl_preserve (regStep cKeys si)
      (fun a : Graph => (cj ∈ b.registered sj → cj ∈ a.registered sj) ∧
        (sj ∈ b.enrolled cj → sj ∈ a.enrolled cj)) sd.registered_courses b
      (fun a x _ ha => ⟨fun h => (pair_mono_regStep cKeys si a x sj cj).1 (ha.1 h),
        fun h => (pair_mono_regStep cKeys si a x sj cj).2 (ha.2 h)⟩) ⟨id, id⟩
    exact this

/-- Pass 5 leaves registered and enrolled entirely unchanged. -/
theorem regenr_pass5Step (iKeys cKeys : List String) (b : Graph) (idata : InstructorRec) :
    (pass5Step iKeys cKeys b idata).registered = b.registered ∧
    (pass5Step iKeys cKeys b idata).enrolled = b.enrolled := by
  unfold pass5Step
  cases hd : dictIdx iKeys idata.instructor_id with
  | none => exact ⟨rfl, rfl⟩
  | some ii =>
    refine foldl_preserve _
      (fun a : Graph => a.registered = b.registered ∧ a.enrolled = b.enrolled) _ _ ?_ ⟨rfl, rfl⟩
    intro a x _ ha
    unfold asgStep
    cases hc : dictIdx cKeys x with
    | none => exact ha
    | some ci =>
      rw [setInstrIfNone_registered, addAssigned_registered,
        setInstrIfNone_enrolled, addAssigned_enrolled]
      exact ha

/-- A student record whose map entry is si links every resolvable
registered_courses id in both directions. -/
theorem pair_pass4Step_self (sKeys cKeys : List String) (a : Graph) (sd : StudentRec)
    (si ci : Nat) (cid : String) (hres : dictIdx sKeys sd.student_id = some si)
    (hcid : cid ∈ sd.registered_courses) (hc : dictIdx cKeys cid = some ci) :
    ci ∈ (pass4Step sKeys cKeys a sd).registered si ∧
    si ∈ (pass4Step sKeys cKeys a sd).enrolled ci := by
  unfold pass4Step
  rw [hres]
  obtain ⟨m₁, m₂, hm⟩ := List.append_of_mem hcid
  rw [hm]
  refine foldl_establish (regStep cKeys si) (fun _ => True)
    (fun b : Graph => ci ∈ b.registered si ∧ si ∈ b.enrolled ci) m₁ cid m₂ a
    (fun _ _ _ _ => trivial) ?_ ?_ trivial
  · intro b _
    unfold regStep
    rw [hc]
    constructor
    · rw [show (addEnrolled (addRegistered b si ci) ci si).registered =
          (addRegistered b si ci).registered from addEnrolled_registered _ _ _]
      rw [mem_registered_addRegistered]
      exact Or.inr ⟨rfl, rfl⟩
    · rw [mem_enrolled_addEnrolled]
      exact Or.inr ⟨rfl, rfl⟩
  · intro b y _ hb
    exact ⟨(pair_mono_regStep cKeys si b y si ci).1 hb.1,
      (pair_mono_regStep cKeys si b y si ci).2 hb.2⟩

/-- Helper for the student-side cross-check: every registered_courses id of a
student record that resolves becomes an edge in both directions. -/
theorem wire_pair_of_student_record (d : Document) (S : List StudentObj)
    (I : List InstructorObj) (C : List CourseObj)
    (hsk : S.map (fun s => s.student_id) = d.sKeys)
    (hik : I.map (fun i => i.instructor_id) = d.iKeys)
    (hck : C.map (fun c => c.course_id) = d.cKeys)
    (sr : StudentRec) (hsr : sr ∈ d.sRecs) (si : Nat)
    (hsi : dictIdx d.sKeys sr.student_id = some si)
    (cid : String) (hcid : cid ∈ sr.registered_courses) (ci : Nat)
    (hci : dictIdx d.cKeys cid = some ci) :
    ci ∈ (wireGraph d S I C).registered si ∧ si ∈ (wireGraph d S I C).enrolled ci := by
  simp only [wireGraph]
  rw [hsk, hik, hck]
  have h4 : ∀ b : Graph,
      ci ∈ (List.foldl (pass4Step d.sKeys d.cKeys) b d.sRecs).registered si ∧
      si ∈ (List.foldl (pass4Step d.sKeys d.cKeys) b d.sRecs).enrolled ci := by
    intro b
    obtain ⟨l₁, l₂, hsplit⟩ := List.append_of_mem hsr
    rw [hsplit]
    refine foldl_establish (pass4Step d.sKeys d.cKeys) (fun _ => True)
      (fun a : Graph => ci ∈ a.registered si ∧ si ∈ a.enrolled ci) l₁ sr l₂ b
      (fun _ _ _ _ => trivial) ?_ ?_ trivial
    · intro a _
      exact pair_pass4Step_self d.sKeys d.cKeys a sr si ci cid hsi hcid hci
    · intro a y _ ha
      exact ⟨(pair_mono_pass4Step d.sKeys d.cKeys a y si ci).1 ha.1,
        (pair_mono_pass4Step d.sKeys d.cKeys a y si ci).2 ha.2⟩
  refine foldl_preserve (pass5Step d.iKeys d.cKeys)
    (fun a : Graph => ci ∈ a.registered si ∧ si ∈ a.enrolled ci) d.iRecs _ ?_ (h4 _)
  intro a x _ ha
  rw [(regenr_pass5Step d.iKeys d.cKeys a x).1, (regenr_pass5Step d.iKeys d.cKeys a x).2]
  exact ha

/-- Soundness of the enrollment wiring: every registered/enrolled edge of the
wired graph is derived from the document. -/
theorem wire_reg_sound (d : Document) (S : List StudentObj) (I : List InstructorObj)
    (C : List CourseObj)
    (hsk : S.map (fun s => s.student_id) = d.sKeys)
    (hik : I.map (fun i => i.instructor_id) = d.iKeys)
    (hck : C.map (fun c => c.course_id) = d.cKeys) :
    ∀ si ci, (ci ∈ (wireGraph d S I C).registered si → regSource d si ci) ∧
      (si ∈ (wireGraph d S I C).enrolled ci → regSource d si ci) := by
  simp only [wireGraph]
  rw [hsk, hik, hck]
  refine foldl_preserve (pass5Step d.iKeys d.cKeys)
    (fun b : Graph => ∀ sj cj, (cj ∈ b.registered sj → regSource d sj cj) ∧
      (sj ∈ b.enrolled cj → regSource d sj cj)) d.iRecs _ ?_ ?_
  · intro a x _ ha sj cj
    obtain ⟨e1, e2⟩ := regenr_pass5Step d.iKeys d.cKeys a x
    rw [e1, e2]
    exact ha sj cj
  · refine foldl_preserve (pass4Step d.sKeys d.cKeys)
      (fun b : Graph => ∀ sj cj, (cj ∈ b.registered sj → regSource d sj cj) ∧
        (sj ∈ b.enrolled cj → regSource d sj cj)) d.sRecs _ ?_ ?_
    · intro a x hx ha
      unfold pass4Step
      cases hd : dictIdx d.sKeys x.student_id with
      | none => exact ha
      | some si₀ =>
        refine foldl_preserve (regStep d.cKeys si₀)
          (fun b : Graph => ∀ sj cj, (cj ∈ b.registered sj → regSource d sj cj) ∧
            (sj ∈ b.enrolled cj → regSource d sj cj)) x.registered_courses a ?_ ha
        intro b y hy hb sj cj
        unfold regStep
        cases hc : dictIdx d.cKeys y with
        | none => exact hb sj cj
        | some ci₀ =>
          constructor
          · intro hmem
            rw [show (addEnrolled (addRegistered b si₀ ci₀) ci₀ si₀).registered =
                (addRegistered b si₀ ci₀).registered from addEnrolled_registered _ _ _] at hmem
            rw [mem_registered_addRegistered] at hmem
            rcases hmem with h | ⟨rfl, rfl⟩
            · exact (hb sj cj).1 h
            · exact Or.inr ⟨x, hx, hd, y, hy, hc⟩
          · intro hmem
            rw [mem_enrolled_addEnrolled] at hmem
            rcases hmem with h | ⟨rfl, rfl⟩
            · rw [show (addRegistered b si₀ ci₀).enrolled = b.enrolled
                  from addRegistered_enrolled _ _ _] at h
              exact (hb sj cj).2 h
            · exact Or.inr ⟨x, hx, hd, y, hy, hc⟩
    · refine foldl_preserve (pass3Step d.sKeys d.iKeys d.cKeys)
        (fun b : Graph => ∀ sj cj, (cj ∈ b.registered sj → regSource d sj cj) ∧
          (sj ∈ b.enrolled cj → regSource d sj cj)) d.cRecs _ ?_ ?_
      · intro a x hx ha
        unfold pass3Step
        cases hd : dictIdx d.cKeys x.course_id with
        | none => exact ha
        | some ci₀ =>
          have hbase : ∀ sj cj,
              (cj ∈ (courseInstr d.iKeys ci₀ a x.instructor).registered sj →
                regSource d sj cj) ∧
              (sj ∈ (courseInstr d.iKeys ci₀ a x.instructor).enrolled cj →
                regSource d sj cj) := by
            intro sj cj
            rw [courseInstr_registered, courseInstr_enrolled]
            exact ha sj cj
          refine foldl_preserve (linkEnrollStep d.sKeys ci₀)
            (fun b : Graph => ∀ sj cj, (cj ∈ b.registered sj → regSource d sj cj) ∧
              (sj ∈ b.enrolled cj → regSource d sj cj)) x.enrolled_students _ ?_ hbase
          intro b y hy hb sj cj
          unfold linkEnrollStep
          cases hs : dictIdx d.sKeys y with
          | none => exact hb sj cj
          | some si₀ =>
            constructor
            · intro hmem
              rw [mem_registered_addRegistered] at hmem
              rcases hmem with h | ⟨rfl, rfl⟩
              · rw [show (addEnrolled b ci₀ si₀).registered = b.registered
                    from addEnrolled_registered _ _ _] at h
                exact (hb sj cj).1 h
              · exact Or.inl ⟨x, hx, hd, y, hy, hs⟩
            · intro hmem
              rw [show (addRegistered (addEnrolled b ci₀ si₀) si₀ ci₀).enrolled =
                  (addEnrolled b ci₀ si₀).enrolled from addRegistered_enrolled _ _ _] at hmem
              rw [mem_enrolled_addEnrolled] at hmem
              rcases hmem with h | ⟨rfl, rfl⟩
              · exact (hb sj cj).2 h
              · exact Or.inl ⟨x, hx, hd, y, hy, hs⟩
      · intro sj cj
        constructor <;> intro hmem <;> simp at hmem

/-- Soundness of the assignment wiring: every assigned edge of the wired
graph is derived from the document. -/
theorem wire_asg_sound (d : Document) (S : List StudentObj) (I : List InstructorObj)
    (C : List CourseObj)
    (hsk : S.map (fun s => s.student_id) = d.sKeys)
    (hik : I.map (fun i => i.instructor_id) = d.iKeys)
    (hck : C.map (fun c => c.course_id) = d.cKeys) :
    ∀ ii ci, ci ∈ (wireGraph d S I C).assigned ii → asgSource d ii ci := by
  simp only [wireGraph]
  rw [hsk, hik, hck]
  refine foldl_preserve (pass5Step d.iKeys d.cKeys)
    (fun b : Graph => ∀ ij cj, cj ∈ b.assigned ij → asgSource d ij cj) d.iRecs _ ?_ ?_
  · intro a x hx ha
    unfold pass5Step
    cases hd : dictIdx d.iKeys x.instructor_id with
    | none => exact ha
    | some ii₀ =>
      refine foldl_preserve (asgStep d.cKeys ii₀)
        (fun b : Graph => ∀ ij cj, cj ∈ b.assigned ij → asgSource d ij cj)
        x.assigned_courses a ?_ ha
      intro b y hy hb ij cj
      unfold asgStep
      cases hc : dictIdx d.cKeys y with
      | none => exact hb ij cj
      | some ci₀ =>
        intro hmem
        rw [show (setInstrIfNone (addAssigned b ii₀ ci₀) ci₀ ii₀).assigned =
            (addAssigned b ii₀ ci₀).assigned from setInstrIfNone_assigned _ _ _] at hmem
        rw [mem_assigned_addAssigned] at hmem
        rcases hmem with h | ⟨rfl, rfl⟩
        · exact hb ij cj h
        · exact Or.inr ⟨x, hx, hd, y, hy, hc⟩
  · refine foldl_preserve (pass4Step d.sKeys d.cKeys)
      (fun b : Graph => ∀ ij cj, cj ∈ b.assigned ij → asgSource d ij cj) d.sRecs _ ?_ ?_
    · intro a x _ ha
      unfold pass4Step
      cases hd : dictIdx d.sKeys x.student_id with
      | none => exact ha
      | some si₀ =>
        refine foldl_preserve (regStep d.cKeys si₀)
          (fun b : Graph => ∀ ij cj, cj ∈ b.assigned ij → asgSource d ij cj)
          x.registered_courses a ?_ ha
        intro b y _ hb ij cj
        unfold regStep
        cases hc : dictIdx d.cKeys y with
        | none => exact hb ij cj
        | some ci₀ =>
          rw [show (addEnrolled (addRegistered b si₀ ci₀) ci₀ si₀).assigned = b.assigned
              from by rw [addEnrolled_assigned, addRegistered_assigned]]
          exact hb ij cj
    · refine foldl_preserve (pass3Step d.sKeys d.iKeys d.cKeys)
        (fun b : Graph => ∀ ij cj, cj ∈ b.assigned ij → asgSource d ij cj) d.cRecs _ ?_ ?_
      · intro a x hx ha
        unfold pass3Step
        cases hd : dictIdx d.cKeys x.course_id with
        | none => exact ha
        | some ci₀ =>
          have hbase : ∀ ij cj,
              cj ∈ (courseInstr d.iKeys ci₀ a x.instructor).assigned ij →
                asgSource d ij cj := by
            intro ij cj hmem
            cases hinst : x.instructor with
            | none =>
              rw [hinst] at hmem
              exact ha ij cj hmem
            | some iid =>
              rw [hinst] at hmem
              unfold courseInstr at hmem
              by_cases he : iid = ""
              · simp only [if_pos he] at hmem
                exact ha ij cj hmem
              · simp only [if_neg he] at hmem
                cases hi : dictIdx d.iKeys iid with
                | none =>
                  rw [hi] at hmem
                  exact ha ij cj hmem
                | some ii₀ =>
                  rw [hi] at hmem
                  rw [mem_assigned_addAssigned] at hmem
                  rcases hmem with h | ⟨rfl, rfl⟩
                  · rw [show (setInstr a ci₀ ii₀).assigned = a.assigned
                        from setInstr_assigned _ _ _] at h
                    exact ha ij cj h
                  · exact Or.inl ⟨x, hx, hd, iid, hinst, he, hi⟩
          refine foldl_preserve (linkEnrollStep d.sKeys ci₀)
            (fun b : Graph => ∀ ij cj, cj ∈ b.assigned ij → asgSource d ij cj)
            x.enrolled_students _ ?_ hbase
          intro b y _ hb ij cj
          unfold linkEnrollStep
          cases hs : dictIdx d.sKeys y with
          | none => exact hb ij cj
          | some si₀ =>
            rw [show (addRegistered (addEnrolled b ci₀ si₀) si₀ ci₀).assigned = b.assigned
                from by rw [addRegistered_assigned, addEnrolled_assigned]]
            exact hb ij cj
      · intro ij cj hmem
        simp at hmem

/-- getD at an in-range index is get. -/
theorem getD_eq_get {α : Type} (l : List α) (d : α) :
    ∀ {n : Nat}, (h : n < l.length) → l.getD n d = l.get ⟨n, h⟩ := by
  induction l with
  | nil => intro n h; cases h
  | cons x xs ih =>
    intro n h
    cases n with
    | zero => rfl
    | succ m => exact ih (Nat.lt_of_succ_lt_succ h)

/-- Mapping a projection of positional reads over the index range is mapping
the projection over the list. -/
theorem range_map_getD {α β : Type} (l : List α) (dflt : α) (h : α → β) :
    (List.range l.length).map (fun i => h (l.getD i dflt)) = l.map h := by
  apply List.ext_get
  · simp
  · intro n h1 h2
    simp only [List.get_map, List.get_range]
    congr 1
    exact getD_eq_get l dflt (by simpa using h2)

/-- Positional reads over the index range rebuild the list itself. -/
theorem range_getD_id {α : Type} (l : List α) (d : α) :
    (List.range l.length).map (fun i => l.getD i d) = l := by
  apply List.ext_get
  · simp
  · intro n h1 h2
    simp only [List.get_map, List.get_range]
    exact getD_eq_get l d (by simpa using h2)

/-- The student records of a saved graph. -/
theorem save_sRecs (g : Graph) :
    (save_to_file g).sRecs = (List.range g.students.length).map (fun si => studentRecOf g si) :=
  rfl

/-- The instructor records of a saved graph. -/
theorem save_iRecs (g : Graph) :
    (save_to_file g).iRecs =
      (List.range g.instructors.length).map (fun ii => instructorRecOf g ii) :=
  rfl

/-- The course records of a saved graph. -/
theorem save_cRecs (g : Graph) :
    (save_to_file g).cRecs = (List.range g.courses.length).map (fun ci => courseRecOf g ci) :=
  rfl

/-- The saved document's student keys are the graph's student ids. -/
theorem save_sKeys (g : Graph) : (save_to_file g).sKeys = sIds g := by
  show ((List.range g.students.length).map (fun si => studentRecOf g si)).map
      (fun r => r.student_id) = sIds g
  rw [List.map_map]
  exact range_map_getD g.students ⟨"", 0, "", ""⟩ (fun s => s.student_id)

/-- The saved document's instructor keys are the graph's instructor ids. -/
theorem save_iKeys (g : Graph) : (save_to_file g).iKeys = iIds g := by
  show ((List.range g.instructors.length).map (fun ii => instructorRecOf g ii)).map
      (fun r => r.instructor_id) = iIds g
  rw [List.map_map]
  exact range_map_getD g.instructors ⟨"", 0, "", ""⟩ (fun i => i.instructor_id)

/-- The saved document's course keys are the graph's course ids. -/
theorem save_cKeys (g : Graph) : (save_to_file g).cKeys = cIds g := by
  show ((List.range g.courses.length).map (fun ci => courseRecOf g ci)).map
      (fun r => r.course_id) = cIds g
  rw [List.map_map]
  exact range_map_getD g.courses ⟨"", ""⟩ (fun c => c.course_id)

/-- Reconstructing the student objects of a saved graph gives back exactly
the original student collection. -/
theorem save_sObjs (g : Graph) : (save_to_file g).sRecs.map sObjOf = g.students := by
  show ((List.range g.students.length).map (fun si => studentRecOf g si)).map sObjOf =
    g.students
  rw [List.map_map]
  exact range_getD_id g.students ⟨"", 0, "", ""⟩

/-- Reconstructing the instructor objects of a saved graph gives back exactly
the original instructor collection. -/
theorem save_iObjs (g : Graph) : (save_to_file g).iRecs.map iObjOf = g.instructors := by
  show ((List.range g.instructors.length).map (fun ii => instructorRecOf g ii)).map iObjOf =
    g.instructors
  rw [List.map_map]
  exact range_getD_id g.instructors ⟨"", 0, "", ""⟩

/-- Reconstructing the course objects of a saved graph gives back exactly the
original course collection. -/
theorem save_cObjs (g : Graph) :
    (save_to_file g).cRecs.map courseFromDict = g.courses := by
  show ((List.range g.courses.length).map (fun ci => courseRecOf g ci)).map courseFromDict =
    g.courses
  rw [List.map_map]
  exact range_getD_id g.courses ⟨"", ""⟩

/-- Decomposition of membership in the saved student records. -/
theorem mem_save_sRecs (g : Graph) {x : StudentRec} :
    x ∈ (save_to_file g).sRecs ↔ ∃ si, si < g.students.length ∧ x = studentRecOf g si := by
  rw [save_sRecs]
  simp only [List.mem_map, List.mem_range]
  constructor
  · rintro ⟨si, h1, rfl⟩
    exact ⟨si, h1, rfl⟩
  · rintro ⟨si, h1, rfl⟩
    exact ⟨si, h1, rfl⟩

/-- Decomposition of membership in the saved instructor records. -/
theorem mem_save_iRecs (g : Graph) {x : InstructorRec} :
    x ∈ (save_to_file g).iRecs ↔
      ∃ ii, ii < g.instructors.length ∧ x = instructorRecOf g ii := by
  rw [save_iRecs]
  simp only [List.mem_map, List.mem_range]
  constructor
  · rintro ⟨ii, h1, rfl⟩
    exact ⟨ii, h1, rfl⟩
  · rintro ⟨ii, h1, rfl⟩
    exact ⟨ii, h1, rfl⟩

/-- Decomposition of membership in the saved course records. -/
theorem mem_save_cRecs (g : Graph) {x : CourseRec} :
    x ∈ (save_to_file g).cRecs ↔ ∃ ci, ci < g.courses.length ∧ x = courseRecOf g ci := by
  rw [save_cRecs]
  simp only [List.mem_map, List.mem_range]
  constructor
  · rintro ⟨ci, h1, rfl⟩
    exact ⟨ci, h1, rfl⟩
  · rintro ⟨ci, h1, rfl⟩
    exact ⟨ci, h1, rfl⟩

/-- With duplicate-free student ids, each student object's id resolves to its
own index. -/
theorem dictIdx_sIds (g : Graph) (hns : (sIds g).Nodup) {si : Nat}
    (h : si < g.students.length) : dictIdx (sIds g) (sIdOf g si) = some si := by
  apply dictIdx_get hns
  have hlen : si < (sIds g).length := by simpa [sIds] using h
  rw [List.get?_eq_get hlen]
  congr 1
  show (sIds g).get ⟨si, hlen⟩ = sIdOf g si
  unfold sIds sIdOf
  rw [List.get_map]
  rw [getD_eq_get g.students ⟨"", 0, "", ""⟩ h]

/-- With duplicate-free instructor ids, each instructor object's id resolves
to its own index. -/
theorem dictIdx_iIds (g : Graph) (hni : (iIds g).Nodup) {ii : Nat}
    (h : ii < g.instructors.length) : dictIdx (iIds g) (iIdOf g ii) = some ii := by
  apply dictIdx_get hni
  have hlen : ii < (iIds g).length := by simpa [iIds] using h
  rw [List.get?_eq_get hlen]
  congr 1
  show (iIds g).get ⟨ii, hlen⟩ = iIdOf g ii
  unfold iIds iIdOf
  rw [List.get_map]
  rw [getD_eq_get g.instructors ⟨"", 0, "", ""⟩ h]

/-- With duplicate-free course ids, each course object's id resolves to its
own index. -/
theorem dictIdx_cIds (g : Graph) (hnc : (cIds g).Nodup) {ci : Nat}
    (h : ci < g.courses.length) : dictIdx (cIds g) (cIdOf g ci) = some ci := by
  apply dictIdx_get hnc
  have hlen : ci < (cIds g).length := by simpa [cIds] using h
  rw [List.get?_eq_get hlen]
  congr 1
  show (cIds g).get ⟨ci, hlen⟩ = cIdOf g ci
  unfold cIds cIdOf
  rw [List.get_map]
  rw [getD_eq_get g.courses ⟨"", ""⟩ h]

/-- A pass-5 inner step whose course id resolves away from ci leaves
instr ci alone. -/
theorem instr_asgStep_ne (cKeys : List String) (ii : Nat) (b : Graph) (cid : String)
    (ci : Nat) (h : ∀ cj, dictIdx cKeys cid = some cj → cj ≠ ci) :
    (asgStep cKeys ii b cid).instr ci = b.instr ci := by
  unfold asgStep
  cases hc : dictIdx cKeys cid with
  | none => rfl
  | some cj =>
    rw [setInstrIfNone_instr]
    rw [show (addAssigned b ii cj).instr = b.instr from addAssigned_instr _ _ _]
    rw [if_neg (fun hcond => h cj hc hcond.1.symm)]

/-- A pass-3 step whose record carries a null instructor field leaves
instr untouched. -/
theorem instr_pass3Step_noinst (sKeys iKeys cKeys : List String) (b : Graph)
    (x : CourseRec) (ci : Nat) (hinst : x.instructor = none) :
    (pass3Step sKeys iKeys cKeys b x).instr ci = b.instr ci := by
  unfold pass3Step
  cases hd : dictIdx cKeys x.course_id with
  | none => rfl
  | some ci₀ =>
    have hbase : (courseInstr iKeys ci₀ b x.instructor).instr ci = b.instr ci := by
      rw [hinst]
      rfl
    refine foldl_preserve _ (fun a : Graph => a.instr ci = b.instr ci) _ _ ?_ hbase
    intro a y _ ha
    unfold linkEnrollStep
    cases hs : dictIdx sKeys y with
    | none => exact ha
    | some si => rw [addRegistered_instr, addEnrolled_instr, ha]

/-- Construction succeeds on a list of valid student records and yields the
projected objects. -/
theorem exceptMap_student_ok (l : List StudentRec)
    (h : ∀ r ∈ l, is_valid_age r.age = true ∧ is_valid_email r.email = true) :
    exceptMap studentFromDict l = .ok (l.map sObjOf) := by
  induction l with
  | nil => rfl
  | cons x xs ih =>
    have hx := h x (List.mem_cons_self x xs)
    have hage : (0 : Int) ≤ x.age := by
      have := hx.1
      unfold is_valid_age at this
      exact of_decide_eq_true this
    have hok : studentFromDict x = .ok (sObjOf x) := by
      unfold studentFromDict
      rw [person_init_ok hage hx.2]
      rfl
    simp only [exceptMap, hok, ih (fun r hr => h r (List.mem_cons_of_mem x hr)),
      List.map_cons]

/-- Construction succeeds on a list of valid instructor records and yields
the projected objects. -/
theorem exceptMap_instructor_ok (l : List InstructorRec)
    (h : ∀ r ∈ l, is_valid_age r.age = true ∧ is_valid_email r.email = true) :
    exceptMap instructorFromDict l = .ok (l.map iObjOf) := by
  induction l with
  | nil => rfl
  | cons x xs ih =>
    have hx := h x (List.mem_cons_self x xs)
    have hage : (0 : Int) ≤ x.age := by
      have := hx.1
      unfold is_valid_age at this
      exact of_decide_eq_true this
    have hok : instructorFromDict x = .ok (iObjOf x) := by
      unfold instructorFromDict
      rw [person_init_ok hage hx.2]
      rfl
    simp only [exceptMap, hok, ih (fun r hr => h r (List.mem_cons_of_mem x hr)),
      List.map_cons]

/-- The saved student records of a valid graph are valid. -/
theorem save_sRecs_valid (g : Graph) (hV : ValidGraph g) :
    ∀ r ∈ (save_to_file g).sRecs,
      is_valid_age r.age = true ∧ is_valid_email r.email = true := by
  intro r hr
  rw [mem_save_sRecs] at hr
  obtain ⟨si, hsi, rfl⟩ := hr
  have hm : g.students.getD si ⟨"", 0, "", ""⟩ ∈ g.students := by
    rw [getD_eq_get _ _ hsi]
    exact List.get_mem _ _ _
  exact hV.1 _ hm

/-- The saved instructor records of a valid graph are valid. -/
theorem save_iRecs_valid (g : Graph) (hV : ValidGraph g) :
    ∀ r ∈ (save_to_file g).iRecs,
      is_valid_age r.age = true ∧ is_valid_email r.email = true := by
  intro r hr
  rw [mem_save_iRecs] at hr
  obtain ⟨ii, hii, rfl⟩ := hr
  have hm : g.instructors.getD ii ⟨"", 0, "", ""⟩ ∈ g.instructors := by
    rw [getD_eq_get _ _ hii]
    exact List.get_mem _ _ _
  exact hV.2 _ hm

/-- Translation of a documented enrollment edge of the saved graph back into
the original graph, under closure, symmetry and unique ids. -/
theorem regSource_save (g : Graph) (hsym : studentSym g) (hcl : ClosedGraph g)
    (hns : (sIds g).Nodup) (hnc : (cIds g).Nodup) {si ci : Nat}
    (h : regSource (save_to_file g) si ci) : ci ∈ g.registered si := by
  obtain ⟨hclR, hclRe, hclE, hclEe, hclI, hclA, hclAe⟩ := hcl
  rcases h with ⟨cd, hcd, hres, sid, hsid, hsidres⟩ | ⟨sr, hsr, hres, cid, hcid, hcidres⟩
  · rw [mem_save_cRecs] at hcd
    obtain ⟨ci₀, hci₀, rfl⟩ := hcd
    rw [save_cKeys] at hres
    have hres₀ : dictIdx (cIds g) (courseRecOf g ci₀).course_id = some ci₀ :=
      dictIdx_cIds g hnc hci₀
    have hcieq : ci = ci₀ := Option.some.inj (hres.symm.trans hres₀)
    have hsid' : sid ∈ (g.enrolled ci₀).map (fun sj => sIdOf g sj) := hsid
    obtain ⟨si₀, hsi₀, rfl⟩ := List.mem_map.mp hsid'
    have hsi₀n : si₀ < g.students.length := hclE ci₀ hci₀ si₀ hsi₀
    rw [save_sKeys] at hsidres
    have hres₁ : dictIdx (sIds g) (sIdOf g si₀) = some si₀ := dictIdx_sIds g hns hsi₀n
    have hsieq : si = si₀ := Option.some.inj (hsidres.symm.trans hres₁)
    subst hcieq
    subst hsieq
    exact (hsym si ci).mp hsi₀
  · rw [mem_save_sRecs] at hsr
    obtain ⟨si₀, hsi₀, rfl⟩ := hsr
    rw [save_sKeys] at hres
    have hres₀ : dictIdx (sIds g) (studentRecOf g si₀).student_id = some si₀ :=
      dictIdx_sIds g hns hsi₀
    have hsieq : si = si₀ := Option.some.inj (hres.symm.trans hres₀)
    have hcid' : cid ∈ (g.registered si₀).map (fun cj => cIdOf g cj) := hcid
    obtain ⟨ci₀, hci₀, rfl⟩ := List.mem_map.mp hcid'
    have hci₀n : ci₀ < g.courses.length := hclR si₀ hsi₀ ci₀ hci₀
    rw [save_cKeys] at hcidres
    have hres₁ : dictIdx (cIds g) (cIdOf g ci₀) = some ci₀ := dictIdx_cIds g hnc hci₀n
    have hcieq : ci = ci₀ := Option.some.inj (hcidres.symm.trans hres₁)
    subst hsieq
    subst hcieq
    exact hci₀

/-- Translation of a documented assignment edge of the saved graph back into
the original graph, under closure, instructor symmetry and unique ids. -/
theorem asgSource_save (g : Graph) (hisym : instrSym g) (hcl : ClosedGraph g)
    (hni : (iIds g).Nodup) (hnc : (cIds g).Nodup) {ii ci : Nat}
    (h : asgSource (save_to_file g) ii ci) : ci ∈ g.assigned ii := by
  obtain ⟨hclR, hclRe, hclE, hclEe, hclI, hclA, hclAe⟩ := hcl
  rcases h with ⟨cd, hcd, hres, iid, hinst, hne', hiidres⟩ | ⟨ir, hir, hres, cid, hcid, hcidres⟩
  · rw [mem_save_cRecs] at hcd
    obtain ⟨ci₀, hci₀, rfl⟩ := hcd
    rw [save_cKeys] at hres
    have hres₀ : dictIdx (cIds g) (courseRecOf g ci₀).course_id = some ci₀ :=
      dictIdx_cIds g hnc hci₀
    have hcieq : ci = ci₀ := Option.some.inj (hres.symm.trans hres₀)
    have hinst' : (g.instr ci₀).map (fun ij => iIdOf g ij) = some iid := hinst
    obtain ⟨ii₀, hii₀, rfl⟩ := Option.map_eq_some'.mp hinst'
    have hii₀n : ii₀ < g.instructors.length := (hclI ci₀ ii₀ hii₀).2
    rw [save_iKeys] at hiidres
    have hres₁ : dictIdx (iIds g) (iIdOf g ii₀) = some ii₀ := dictIdx_iIds g hni hii₀n
    have hiieq : ii = ii₀ := Option.some.inj (hiidres.symm.trans hres₁)
    subst hcieq
    subst hiieq
    exact (hisym ci ii).mp hii₀
  · rw [mem_save_iRecs] at hir
    obtain ⟨ii₀, hii₀, rfl⟩ := hir
    rw [save_iKeys] at hres
    have hres₀ : dictIdx (iIds g) (instructorRecOf g ii₀).instructor_id = some ii₀ :=
      dictIdx_iIds g hni hii₀
    have hiieq : ii = ii₀ := Option.some.inj (hres.symm.trans hres₀)
    have hcid' : cid ∈ (g.assigned ii₀).map (fun cj => cIdOf g cj) := hcid
    obtain ⟨ci₀, hci₀, rfl⟩ := List.mem_map.mp hcid'
    have hci₀n : ci₀ < g.courses.length := hclA ii₀ hii₀ ci₀ hci₀
    rw [save_cKeys] at hcidres
    have hres₁ : dictIdx (cIds g) (cIdOf g ci₀) = some ci₀ := dictIdx_cIds g hnc hci₀n
    have hcieq : ci = ci₀ := Option.some.inj (hcidres.symm.trans hres₁)
    subst hiieq
    subst hcieq
    exact hci₀

/-- C2 amended: for a well-formed in-memory graph — valid person scalars,
closed references, unique (and, for instructors, non-empty) ids — that
satisfies the symmetry invariant in both relations, saving with
save_to_file and reconciling with load_obj_from_json succeeds and gives
back the very same student/instructor/course collections (hence id sets and
scalar fields) and the same edge sets in both directions. -/
theorem roundtrip_wellformed (g : Graph)
    (hV : ValidGraph g) (hsym : studentSym g) (hisym : instrSym g) (hcl : ClosedGraph g)
    (hns : (sIds g).Nodup) (hni : (iIds g).Nodup) (hnc : (cIds g).Nodup)
    (hne : ∀ s ∈ iIds g, s ≠ "") :
    (∃ g2, load_obj_from_json (save_to_file g) = Except.ok g2) ∧
    (∀ g2, load_obj_from_json (save_to_file g) = Except.ok g2 →
      g2.students = g.students ∧ g2.instructors = g.instructors ∧ g2.courses = g.courses ∧
      (∀ si ci, ci ∈ g2.registered si ↔ ci ∈ g.registered si) ∧
      (∀ ci si, si ∈ g2.enrolled ci ↔ si ∈ g.enrolled ci) ∧
      (∀ ci, g2.instr ci = g.instr ci) ∧
      (∀ ii ci, ci ∈ g2.assigned ii ↔ ci ∈ g.assigned ii)) := by
  have hokS : exceptMap studentFromDict (save_to_file g).sRecs =
      .ok ((save_to_file g).sRecs.map sObjOf) :=
    exceptMap_student_ok _ (save_sRecs_valid g hV)
  have hokI : exceptMap instructorFromDict (save_to_file g).iRecs =
      .ok ((save_to_file g).iRecs.map iObjOf) :=
    exceptMap_instructor_ok _ (save_iRecs_valid g hV)
  constructor
  · refine ⟨wireGraph (save_to_file g) ((save_to_file g).sRecs.map sObjOf)
      ((save_to_file g).iRecs.map iObjOf) ((save_to_file g).cRecs.map courseFromDict), ?_⟩
    unfold load_obj_from_json
    simp only [hokS, hokI]
  · intro g2 hok
    have hg2 := load_ok hok
    subst hg2
    obtain ⟨hsk, hik, hck⟩ := load_keys (save_to_file g)
    obtain ⟨hclR, hclRe, hclE, hclEe, hclI, hclA, hclAe⟩ := hcl
    refine ⟨?_, ?_, ?_, ?_, ?_, ?_, ?_⟩
    · rw [wireGraph_students, save_sObjs]
    · rw [wireGraph_instructors, save_iObjs]
    · rw [wireGraph_courses, save_cObjs]
    · intro si ci
      constructor
      · intro hmem
        exact regSource_save g hsym ⟨hclR, hclRe, hclE, hclEe, hclI, hclA, hclAe⟩ hns hnc
          ((wire_reg_sound _ _ _ _ hsk hik hck si ci).1 hmem)
      · intro hmem
        have hsin : si < g.students.length := by
          by_contra hge
          rw [hclRe si (Nat.le_of_not_lt hge)] at hmem
          exact absurd hmem (List.not_mem_nil ci)
        have hcin : ci < g.courses.length := hclR si hsin ci hmem
        refine (wire_pair_of_student_record (save_to_file g) _ _ _ hsk hik hck
          (studentRecOf g si) ?_ si ?_ (cIdOf g ci) ?_ ci ?_).1
        · exact (mem_save_sRecs g).mpr ⟨si, hsin, rfl⟩
        · rw [save_sKeys]
          exact dictIdx_sIds g hns hsin
        · exact List.mem_map_of_mem _ hmem
        · rw [save_cKeys]
          exact dictIdx_cIds g hnc hcin
    · intro ci si
      constructor
      · intro hmem
        exact (hsym si ci).mpr
          (regSource_save g hsym ⟨hclR, hclRe, hclE, hclEe, hclI, hclA, hclAe⟩ hns hnc
            ((wire_reg_sound _ _ _ _ hsk hik hck si ci).2 hmem))
      · intro hmem
        have hreg : ci ∈ g.registered si := (hsym si ci).mp hmem
        have hsin : si < g.students.length := by
          by_contra hge
          rw [hclRe si (Nat.le_of_not_lt hge)] at hreg
          exact absurd hreg (List.not_mem_nil ci)
        have hcin : ci < g.courses.length := hclR si hsin ci hreg
        refine (wire_pair_of_student_record (save_to_file g) _ _ _ hsk hik hck
          (studentRecOf g si) ?_ si ?_ (cIdOf g ci) ?_ ci ?_).2
        · exact (mem_save_sRecs g).mpr ⟨si, hsin, rfl⟩
        · rw [save_sKeys]
          exact dictIdx_sIds g hns hsin
        · exact List.mem_map_of_mem _ hreg
        · rw [save_cKeys]
          exact dictIdx_cIds g hnc hcin
    · intro ci
      cases hgi : g.instr ci with
      | some ii =>
        have hrange := hclI ci ii hgi
        refine wire_instr_of_course_record (save_to_file g) _ _ _ hsk hik hck ?_
          (courseRecOf g ci) ?_ (iIdOf g ii) ?_ ?_ ii ?_ ci ?_
        · rw [save_cKeys]
          exact hnc
        · exact (mem_save_cRecs g).mpr ⟨ci, hrange.1, rfl⟩
        · show (g.instr ci).map (fun ij => iIdOf g ij) = some (iIdOf g ii)
          rw [hgi]
          rfl
        · apply hne
          show (g.instructors.getD ii ⟨"", 0, "", ""⟩).instructor_id ∈
            g.instructors.map (fun i => i.instructor_id)
          rw [getD_eq_get _ _ hrange.2]
          exact List.mem_map_of_mem _ (List.get_mem _ _ _)
        · rw [save_iKeys]
          exact dictIdx_iIds g hni hrange.2
        · show dictIdx (save_to_file g).cKeys (cIdOf g ci) = some ci
          rw [save_cKeys]
          exact dictIdx_cIds g hnc hrange.1
      | none =>
        simp only [wireGraph]
        rw [hsk, hik, hck, save_sKeys, save_iKeys, save_cKeys]
        refine foldl_preserve (pass5Step (iIds g) (cIds g))
          (fun b : Graph => b.instr ci = none) _ _ ?_ ?_
        · intro b x hx hb
          obtain ⟨ij, hij, rfl⟩ := (mem_save_iRecs g).mp hx
          unfold pass5Step
          have hresj : dictIdx (iIds g) (instructorRecOf g ij).instructor_id = some ij :=
            dictIdx_iIds g hni hij
          rw [hresj]
          refine foldl_preserve (asgStep (cIds g) ij)
            (fun b : Graph => b.instr ci = none) _ _ ?_ hb
          intro b' y hy hb'
          have hy' : y ∈ (g.assigned ij).map (fun cj => cIdOf g cj) := hy
          obtain ⟨cj₀, hcj₀, rfl⟩ := List.mem_map.mp hy'
          have hcj₀n : cj₀ < g.courses.length := hclA ij hij cj₀ hcj₀
          have hresc : dictIdx (cIds g) (cIdOf g cj₀) = some cj₀ := dictIdx_cIds g hnc hcj₀n
          rw [instr_asgStep_ne (cIds g) ij b' (cIdOf g cj₀) ci ?_]
          · exact hb'
          · intro cj hcj hceq
            have hcjeq : cj₀ = cj := Option.some.inj (hresc.symm.trans hcj)
            rw [hcjeq, hceq] at hcj₀
            have := (hisym ci ij).mpr hcj₀
            rw [hgi] at this
            cases this
        · refine foldl_preserve (pass4Step (sIds g) (cIds g))
            (fun b : Graph => b.instr ci = none) _ _ ?_ ?_
          · intro b x _ hb
            rw [instr_pass4Step]
            exact hb
          · refine foldl_preserve (pass3Step (sIds g) (iIds g) (cIds g))
              (fun b : Graph => b.instr ci = none) _ _ ?_ rfl
            intro b x hx hb
            obtain ⟨cj, hcj, rfl⟩ := (mem_save_cRecs g).mp hx
            by_cases hcc : cj = ci
            · have hinst : (courseRecOf g cj).instructor = none := by
                show (g.instr cj).map (fun ij => iIdOf g ij) = none
                rw [hcc, hgi]
                rfl
              rw [instr_pass3Step_noinst _ _ _ b _ ci hinst]
              exact hb
            · have hresj : dictIdx (cIds g) (courseRecOf g cj).course_id = some cj :=
                dictIdx_cIds g hnc hcj
              rw [instr_pass3Step_ne _ _ _ b _ ci ?_]
              · exact hb
              · intro cj' hcj' heq
                have : cj = cj' := Option.some.inj (hresj.symm.trans hcj')
                exact hcc (this.trans heq)
    · intro ii ci
      constructor
      · intro hmem
        exact asgSource_save g hisym ⟨hclR, hclRe, hclE, hclEe, hclI, hclA, hclAe⟩ hni hnc
          (wire_asg_sound _ _ _ _ hsk hik hck ii ci hmem)
      · intro hmem
        have hiin : ii < g.instructors.length := by
          by_contra hge
          rw [hclAe ii (Nat.le_of_not_lt hge)] at hmem
          exact absurd hmem (List.not_mem_nil ci)
        have hcin : ci < g.courses.length := hclA ii hiin ci hmem
        refine wire_assigned_of_instructor_record (save_to_file g) _ _ _ hik hck
          (instructorRecOf g ii) ?_ ii ?_ (cIdOf g ci) ?_ ci ?_
        · exact (mem_save_iRecs g).mpr ⟨ii, hiin, rfl⟩
        · rw [save_iKeys]
          exact dictIdx_iIds g hni hiin
        · exact List.mem_map_of_mem _ hmem
        · rw [save_cKeys]
          exact dictIdx_cIds g hnc hcin

/-- C2 counterexample: the asymmetric graph (course 0's instructor is set but
instructor 0's assigned_courses is empty) round-trips into a graph with the
extra assigned edge, so decode(encode(graph)) does not preserve the edge sets
of every in-memory graph. -/
theorem roundtrip_counterexample :
    (load_obj_from_json (save_to_file graphAsym)).isOk = true ∧
    0 ∈ (loadOrEmpty (save_to_file graphAsym)).assigned 0 ∧
    0 ∉ graphAsym.assigned 0 := by
  refine ⟨by decide, by decide, by decide⟩

/-- C2 amended witness: the one-of-each symmetric graph graphSmall
round-trips successfully, and its enrollment edge survives. -/
theorem roundtrip_wellformed_witness :
    (∃ g2, load_obj_from_json (save_to_file graphSmall) = Except.ok g2) ∧
    0 ∈ (loadOrEmpty (save_to_file graphSmall)).registered 0 := by
  have hV : ValidGraph graphSmall := by
    constructor
    · intro s hs
      rw [show graphSmall.students = [⟨"Alice", 20, "a@b.c", "S1"⟩] from rfl] at hs
      rw [List.mem_singleton] at hs
      subst hs
      exact ⟨by decide, by decide⟩
    · intro i hi
      rw [show graphSmall.instructors = [⟨"DrX", 50, "x@y.z", "I1"⟩] from rfl] at hi
      rw [List.mem_singleton] at hi
      subst hi
      exact ⟨by decide, by decide⟩
  have hsym : studentSym graphSmall := by
    intro si ci
    by_cases hci : ci = 0 <;> by_cases hsi : si = 0 <;> simp [graphSmall, hci, hsi]
  have hisym : instrSym graphSmall := by
    intro ci ii
    by_cases hci : ci = 0 <;> by_cases hii : ii = 0 <;> simp [graphSmall, hci, hii] <;> omega
  have hcl : ClosedGraph graphSmall := by
    refine ⟨?_, ?_, ?_, ?_, ?_, ?_, ?_⟩
    · intro si hsi ci hci
      have h0 : si = 0 := by
        simp [graphSmall] at hsi
        omega
      subst h0
      simp [graphSmall] at hci
      simp [graphSmall, hci]
    · intro si hsi
      have h0 : si ≠ 0 := by
        simp [graphSmall] at hsi
        omega
      simp [graphSmall, h0]
    · intro ci hci si hsi
      have h0 : ci = 0 := by
        simp [graphSmall] at hci
        omega
      subst h0
      simp [graphSmall] at hsi
      simp [graphSmall, hsi]
    · intro ci hci
      have h0 : ci ≠ 0 := by
        simp [graphSmall] at hci
        omega
      simp [graphSmall, h0]
    · intro ci ii h
      by_cases hci : ci = 0
      · subst hci
        simp [graphSmall] at h
        subst h
        simp [graphSmall]
      · simp [graphSmall, hci] at h
    · intro ii hii ci hci
      have h0 : ii = 0 := by
        simp [graphSmall] at hii
        omega
      subst h0
      simp [graphSmall] at hci
      simp [graphSmall, hci]
    · intro ii hii
      have h0 : ii ≠ 0 := by
        simp [graphSmall] at hii
        omega
      simp [graphSmall, h0]
  have h := roundtrip_wellformed graphSmall hV hsym hisym hcl (by decide) (by decide)
    (by decide) (by decide)
  refine ⟨h.1, ?_⟩
  exact (h.2 (loadOrEmpty (save_to_file graphSmall)) rfl).2.2.2.1 0 0 |>.mpr (by decide)
